import Mathlib

/-!
Verification development for the netproc connection-attribution core.

The model below is a shallow embedding of the C sources:
  * src/src/connection.c — the connection table (dual-indexed by socket
    inode and by 5-tuple) and its update/aging cycle;
  * src/dir.c            — the fd-symlink → inode matching loop;
  * src/src/timer.c      — the sec2clock formatter.

The generic hash table (hashtable.c) is not among the sources; it is
modelled from the specification, see the doc comments marked
"Modelled from the spec".  Machine integers are modelled as Nat with
explicit reduction modulo 2^w where the C code truncates; C strings are
List Char; heap records live in an explicit id → record map so that
pointer identity, reference counts and frees are observable.
-/

set_option autoImplicit false

namespace Netproc

/-! ## Character classes and sscanf-style scanners

connection_update_ parses each line of /proc/net/tcp (resp. udp) with

  sscanf(line, "%*d: %9[0-9A-Fa-f]:%hX %9[0-9A-Fa-f]:%hX %hhX"
               " %*X:%*X %*X:%*X %*X %*d %*d %lu %*512s\n", ...)

The scanners below model the directives used there: a numeric conversion
skips leading whitespace and consumes a maximal run of digits of its
base (kernel connection files contain no sign or 0x prefix, which is the
only sscanf generality dropped here); a scanset does not skip whitespace
and consumes at most its field width; a literal matches one character;
a blank in the format skips any amount of whitespace.  Character classes
are expressed on code points, matching the C locale's isspace/isxdigit.
-/

/-- Whitespace test used by scanf directives (C isspace: space, \t, \n,
\v, \f, \r). -/
def isWS (c : Char) : Bool :=
  c.toNat = 32 || c.toNat = 9 || c.toNat = 10 || c.toNat = 11 ||
  c.toNat = 13 || c.toNat = 12

/-- Value of a hexadecimal digit character, none for other characters. -/
def hexVal? (c : Char) : Option Nat :=
  if 48 ≤ c.toNat ∧ c.toNat ≤ 57 then some (c.toNat - 48)
  else if 65 ≤ c.toNat ∧ c.toNat ≤ 70 then some (c.toNat - 55)
  else if 97 ≤ c.toNat ∧ c.toNat ≤ 102 then some (c.toNat - 87)
  else none

/-- Membership in the scanset [0-9A-Fa-f] of the address fields. -/
def isHexChar (c : Char) : Bool := (hexVal? c).isSome

/-- Value of a decimal digit character, none for other characters. -/
def decVal? (c : Char) : Option Nat :=
  if 48 ≤ c.toNat ∧ c.toNat ≤ 57 then some (c.toNat - 48) else none

/-- Consume a maximal run of digits, folding the value to the left. -/
def scanDigits (val? : Char → Option Nat) (base : Nat) :
    Nat → List Char → Nat × List Char
  | acc, [] => (acc, [])
  | acc, c :: cs =>
    match val? c with
    | some d => scanDigits val? base (acc * base + d) cs
    | none => (acc, c :: cs)

/-- One numeric scanf conversion: skip whitespace, then read at least one
digit of the base; fails when the first non-blank character is not a
digit. -/
def scanNat (val? : Char → Option Nat) (base : Nat) (cs : List Char) :
    Option (Nat × List Char) :=
  match cs.dropWhile isWS with
  | [] => none
  | c :: rest =>
    match val? c with
    | some d => some (scanDigits val? base d rest)
    | none => none

/-- The %9[0-9A-Fa-f] scanset: no whitespace skip, between 1 and 9
characters from the set. -/
def scanSetHex9 (cs : List Char) : Option (List Char × List Char) :=
  let p := (cs.takeWhile isHexChar).take 9
  if p = [] then none else some (p, cs.drop p.length)

/-- Literal character in the scanf format (no whitespace skip). -/
def litChar (ch : Char) (cs : List Char) : Option (List Char) :=
  match cs with
  | c :: rest => if c = ch then some rest else none
  | [] => none

/-- The six assigned fields of one kernel connection-file line, as read
by the sscanf call in connection_update_: the raw address scansets, the
ports, the state and the inode (already reduced to their C storage
widths uint16, uint8, unsigned long). -/
structure ParsedLine where
  local_addr : List Char
  local_port : Nat
  rem_addr : List Char
  rem_port : Nat
  state : Nat
  inode : Nat
deriving DecidableEq, Repr

/-- Scan of one "addr:port" group: the %9[0-9A-Fa-f] scanset, the
literal colon, then the %hX port conversion. -/
def scanAddrPort (cs : List Char) : Option (List Char × Nat × List Char) :=
  match scanSetHex9 cs with
  | none => none
  | some (a, r) =>
    match litChar ':' r with
    | none => none
    | some r =>
      match scanNat hexVal? 16 r with
      | none => none
      | some (p, r) => some (a, p, r)

/-- Scan of one suppressed "%*X:%*X" pair (tx_queue:rx_queue and
tr:tm_when). -/
def scanHexPair (cs : List Char) : Option (List Char) :=
  match scanNat hexVal? 16 cs with
  | none => none
  | some (_, r) =>
    match litChar ':' r with
    | none => none
    | some r =>
      match scanNat hexVal? 16 r with
      | none => none
      | some (_, r) => some r

/-- Scan of the tail after the state field: the two suppressed hex
pairs, the suppressed retrnsmt (%*X), uid and timeout (%*d), then the
%lu inode conversion. -/
def scanInodeTail (cs : List Char) : Option Nat :=
  match scanHexPair cs with
  | none => none
  | some r =>
    match scanHexPair r with
    | none => none
    | some r =>
      match scanNat hexVal? 16 r with
      | none => none
      | some (_, r) =>
        match scanNat decVal? 10 r with
        | none => none
        | some (_, r) =>
          match scanNat decVal? 10 r with
          | none => none
          | some (_, r) =>
            match scanNat decVal? 10 r with
            | none => none
            | some (ino, _) => some ino

/-- Model of the sscanf call of connection_update_ (connection.c lines
230-238).  Returns the six assigned fields exactly when the conversion
count reaches 6 (the suppressed %*512s trailing field cannot lower the
count below 6 and is not modelled). -/
def parse_line (l : List Char) : Option ParsedLine :=
  match scanNat decVal? 10 l with
  | none => none
  | some (_, r) =>
    match litChar ':' r with
    | none => none
    | some r =>
      match scanAddrPort (r.dropWhile isWS) with
      | none => none
      | some (la, lp, r) =>
        match scanAddrPort (r.dropWhile isWS) with
        | none => none
        | some (ra, rp, r) =>
          match scanNat hexVal? 16 r with
          | none => none
          | some (st, r) =>
            match scanInodeTail r with
            | none => none
            | some ino =>
              some ⟨la, lp % 2 ^ 16, ra, rp % 2 ^ 16, st % 2 ^ 8,
                    ino % 2 ^ 64⟩

/-! ## Data model (connection.h is mirrored by connection.c's uses) -/

/-- The 5-tuple identity of a connection (struct tuple: l3 local/remote
ip, l4 ports and protocol).  The l3 addresses are the uint32 values
filled by sscanf("%x") in create_new_conn. -/
structure Tuple where
  local_ip : Nat
  remote_ip : Nat
  local_port : Nat
  remote_port : Nat
  protocol : Nat
deriving DecidableEq, Repr

/-- A connection record (connection_t).  use is the reference count of
hash-table entries pointing at the record; it is kept as Int so that an
underflow below zero would be observable. -/
structure Connection where
  tuple : Tuple
  inode : Nat
  state : Nat
  active : Bool
  use : Int
deriving DecidableEq, Repr

/-- Identity of a heap-allocated connection record: allocation ids stand
for distinct malloc results (the model never reuses an address). -/
abbrev ConnId := Nat

/-- A key handed to the hash table: either &conn->inode or &conn->tuple.
The C code passes raw pointers and the callbacks reinterpret them
according to the global key_type; the model keeps the shape explicit. -/
inductive HKey where
  | inode : Nat → HKey
  | tuple : Tuple → HKey
deriving DecidableEq, Repr

/-- Whole-program state of connection.c: the single hash table
ht_connections (a list of entries, newest first), the heap of live
connection records, the next allocation id, and the process-wide
key_type variable. -/
structure CState where
  table : List (HKey × ConnId)
  heap : List (ConnId × Connection)
  nextId : ConnId
  key_type : Nat
deriving DecidableEq, Repr

/-- Lookup of a record on the heap (pointer dereference). -/
def heapGet : List (ConnId × Connection) → ConnId → Option Connection
  | [], _ => none
  | (i, c) :: rest, id => if i = id then some c else heapGet rest id

/-- Free the record at an id. -/
def heapErase : List (ConnId × Connection) → ConnId →
    List (ConnId × Connection)
  | [], _ => []
  | (i, c) :: rest, id =>
    if i = id then heapErase rest id else (i, c) :: heapErase rest id

/-- Store a record at an id, replacing any previous record there. -/
def heapSet (h : List (ConnId × Connection)) (id : ConnId)
    (c : Connection) : List (ConnId × Connection) :=
  (id, c) :: heapErase h id

/-! ## Hash table, modelled from the spec

hashtable.c is not among the source files; only its callers are.
Modelled from the spec: section 4.A describes "a single parametric keyed
map with operations set(key, value), get(key), remove(key),
foreach(visitor), destroy", keys being opaque byte ranges interpreted by
a caller-supplied hash function and equality predicate, collisions
resolved by chaining, and a caller-supplied free callback that takes
ownership of values.  The model keeps the entries as one list, newest
first, which reproduces a chaining table's behaviour for equal keys
(head insertion) while abstracting bucket placement; set inserts a new
entry (the spec does not define duplicate-key behaviour, and the
connection table counts exactly two entries per record, so entries are
never silently replaced); remove unlinks the first matching entry and
hands the value back to the caller without invoking the free callback
(connection_remove frees the record itself, and ht_cb_free's
decrement-then-free logic accounts one callback per entry on destroy);
foreach visits every record, following the spec's update algorithm
"After all lines are read ... iterate every record". -/

/-- Value of the KEY_INODE discriminator (connection.c line 40). -/
def KEY_INODE : Nat := 1

/-- Value of the KEY_TUPLE discriminator (connection.c line 41). -/
def KEY_TUPLE : Nat := 2

/-- The comparison callback ht_cb_compare: under KEY_INODE it compares
the keys as unsigned long inodes, under KEY_TUPLE it memcmps them as
struct tuple, and under any other key_type it returns 0.  A comparison
between keys of different shapes reinterprets memory in C; the shapes
hash differently, so such pairs are never equal, which the model renders
as false. -/
def ht_cb_compare (kt : Nat) (k1 k2 : HKey) : Bool :=
  if kt = KEY_INODE then
    match k1, k2 with
    | .inode a, .inode b => a = b
    | _, _ => false
  else if kt = KEY_TUPLE then
    match k1, k2 with
    | .tuple a, .tuple b => a = b
    | _, _ => false
  else false

/-- Scan of the entry chain for the first key equal to the probe under
the ambient key_type. -/
def htGetGo (kt : Nat) : List (HKey × ConnId) → HKey → Option ConnId
  | [], _ => none
  | (k, id) :: rest, probe =>
    if ht_cb_compare kt k probe then some id else htGetGo kt rest probe

/-- Modelled from the spec: hashtable_get returns the value stored under
the probe key, resolving key equality through ht_cb_compare under the
current value of the process-wide key_type variable. -/
def hashtable_get (s : CState) (probe : HKey) : Option ConnId :=
  htGetGo s.key_type s.table probe

/-- Modelled from the spec: hashtable_set links a new entry for the key
at the head of its chain. -/
def hashtable_set (s : CState) (k : HKey) (id : ConnId) : CState :=
  { s with table := (k, id) :: s.table }

/-- Removal of the first entry whose key compares equal to the probe. -/
def htRemoveGo (kt : Nat) : List (HKey × ConnId) → HKey →
    List (HKey × ConnId)
  | [], _ => []
  | (k, id) :: rest, probe =>
    if ht_cb_compare kt k probe then rest
    else (k, id) :: htRemoveGo kt rest probe

/-- Modelled from the spec: hashtable_remove unlinks the first entry
matching the probe key under the current key_type and returns its value
to the caller (the free callback is reserved for destroy, where
ht_cb_free runs once per entry). -/
def hashtable_remove (s : CState) (probe : HKey) : CState :=
  { s with table := htRemoveGo s.key_type s.table probe }

/-! ## connection.c operations -/

/-- TCP_TIME_WAIT from netinet/tcp.h. -/
def TCP_TIME_WAIT : Nat := 6

/-- TCP_LISTEN from netinet/tcp.h. -/
def TCP_LISTEN : Nat := 10

/-- IPPROTO_TCP. -/
def IPPROTO_TCP : Nat := 6

/-- IPPROTO_UDP. -/
def IPPROTO_UDP : Nat := 17

/-- Modelled from the spec: the TCP protocol-selection flag defined in
config.h (absent from the sources), a bit tested by proto & TCP. -/
def TCPflag : Nat := 1

/-- Modelled from the spec: the UDP protocol-selection flag defined in
config.h (absent from the sources), a bit tested by proto & UDP. -/
def UDPflag : Nat := 2

/-- The sscanf(buf, "%x", &u32) call of create_new_conn applied to an
address scanset: reads a maximal hexadecimal run and stores it into an
unsigned int. -/
def sscanf_hex (cs : List Char) : Option Nat :=
  (scanNat hexVal? 16 cs).map (fun p => p.1 % 2 ^ 32)

/-- create_new_conn (connection.c lines 128-170): allocate a zeroed
record, parse the two address strings with %x, fill the tuple, state and
inode, and mark the record active; returns none when an address fails to
parse (the calloc-failure path is not modelled: allocation always
succeeds). use is left 0 exactly as calloc leaves it. -/
def create_new_conn (inode : Nat) (local_addr rem_addr : List Char)
    (local_port rem_port state protocol : Nat) : Option Connection :=
  match sscanf_hex local_addr, sscanf_hex rem_addr with
  | some lip, some rip =>
    some { tuple := { local_ip := lip, remote_ip := rip,
                      local_port := local_port, remote_port := rem_port,
                      protocol := protocol },
           state := state, inode := inode, active := true, use := 0 }
  | _, _ => none

/-- connection_insert_by_inode: set key_type = KEY_INODE, then
hashtable_set with &conn->inode. -/
def connection_insert_by_inode (s : CState) (id : ConnId)
    (c : Connection) : CState :=
  hashtable_set { s with key_type := KEY_INODE } (.inode c.inode) id

/-- connection_insert_by_tuple: set key_type = KEY_TUPLE, then
hashtable_set with &conn->tuple. -/
def connection_insert_by_tuple (s : CState) (id : ConnId)
    (c : Connection) : CState :=
  hashtable_set { s with key_type := KEY_TUPLE } (.tuple c.tuple) id

/-- connection_insert (connection.c lines 186-194): set use = 2 (two
references from the hash table) and make the two entries.  The model
also performs the allocation: the record is placed at the fresh id. -/
def connection_insert (s : CState) (c : Connection) : CState :=
  let id := s.nextId
  let c := { c with use := 2 }
  let s := { s with heap := heapSet s.heap id c, nextId := id + 1 }
  connection_insert_by_tuple (connection_insert_by_inode s id c) id c

/-- connection_get_by_inode (connection.c lines 345-350): set key_type,
then hashtable_get.  The returned id is the raw pointer: it can name a
freed record, exactly as the C pointer can. -/
def connection_get_by_inode (s : CState) (inode : Nat) :
    CState × Option ConnId :=
  let s := { s with key_type := KEY_INODE }
  (s, hashtable_get s (.inode inode))

/-- connection_get_by_tuple (connection.c lines 352-357). -/
def connection_get_by_tuple (s : CState) (t : Tuple) :
    CState × Option ConnId :=
  let s := { s with key_type := KEY_TUPLE }
  (s, hashtable_get s (.tuple t))

/-- connection_remove_by_inode: set key_type = KEY_INODE and remove
&conn->inode. -/
def connection_remove_by_inode (s : CState) (c : Connection) : CState :=
  hashtable_remove { s with key_type := KEY_INODE } (.inode c.inode)

/-- connection_remove_by_tuple: set key_type = KEY_TUPLE and remove
&conn->tuple. -/
def connection_remove_by_tuple (s : CState) (c : Connection) : CState :=
  hashtable_remove { s with key_type := KEY_TUPLE } (.tuple c.tuple)

/-- connection_remove (connection.c lines 298-304): drop the inode
entry, drop the tuple entry, free the record. -/
def connection_remove (s : CState) (id : ConnId) (c : Connection) :
    CState :=
  let s := connection_remove_by_tuple (connection_remove_by_inode s c) c
  { s with heap := heapErase s.heap id }

/-- remove_dead_conn (connection.c lines 306-321), the foreach visitor
of the aging pass: an inactive record loses one reference and is removed
and freed when the count reaches zero; an active record is reset to
inactive for the next cycle.  A visit through an entry whose record has
already been freed dereferences freed memory in C; the model leaves the
state unchanged there. -/
def remove_dead_conn (s : CState) (id : ConnId) : CState :=
  match heapGet s.heap id with
  | none => s
  | some c =>
    if !c.active then
      let c' := { c with use := c.use - 1 }
      if c'.use = 0 then connection_remove s id c'
      else { s with heap := heapSet s.heap id c' }
    else { s with heap := heapSet s.heap id { c with active := false } }

/-- Record ids reached by the iteration, in entry order and without
repetition (each record is iterated once). -/
def foreachIds : List (HKey × ConnId) → List ConnId
  | [] => []
  | (_, id) :: rest =>
    let r := foreachIds rest
    if id ∈ r then r else id :: r

/-- Modelled from the spec: hashtable_foreach applied to
remove_dead_conn — "After all lines are read for all requested
protocols, iterate every record", visiting each stored record once. -/
def aging (s : CState) : CState :=
  (foreachIds s.table).foldl remove_dead_conn s

/-- Loop body of connection_update_ for one successfully parsed line
(connection.c lines 248-274): TIME_WAIT and LISTEN entries are skipped;
otherwise a hit by inode marks the record active and a miss allocates
and inserts a fresh record.  none signals the create_new_conn failure
path (ret = 0).  The active store on a hit writes through the pointer
returned by the lookup; if that pointer names a freed record the C code
writes to freed memory, which the model renders as no change. -/
def conn_line_step (protocol : Nat) (s : CState) (pl : ParsedLine) :
    Option CState :=
  if pl.state = TCP_TIME_WAIT ∨ pl.state = TCP_LISTEN then some s
  else
    match connection_get_by_inode s pl.inode with
    | (s, some id) =>
      match heapGet s.heap id with
      | some c => some { s with heap := heapSet s.heap id { c with active := true } }
      | none => some s
    | (s, none) =>
      match create_new_conn pl.inode pl.local_addr pl.rem_addr
          pl.local_port pl.rem_port pl.state protocol with
      | some c => some (connection_insert s c)
      | none => none

/-- The getline loop of connection_update_ over the data lines (header
already consumed): a line that fails to parse, or a failed allocation,
stops the loop with ret = 0 and leaves the state as already modified. -/
def conn_lines (protocol : Nat) : CState → List (List Char) →
    Bool × CState
  | s, [] => (true, s)
  | s, l :: ls =>
    match parse_line l with
    | none => (false, s)
    | some pl =>
      match conn_line_step protocol s pl with
      | none => (false, s)
      | some s' => conn_lines protocol s' ls

/-- connection_update_ (connection.c lines 196-282): the file is its
list of lines; the first line is the header and its absence is the
getline failure path (ret = 0). -/
def connection_update_ (protocol : Nat) (s : CState)
    (file : List (List Char)) : Bool × CState :=
  match file with
  | [] => (false, s)
  | _header :: lines => conn_lines protocol s lines

/-- connection_update (connection.c lines 326-343): scan the TCP file
when the TCP bit is set, then the UDP file when the UDP bit is set,
failing fast; on success run the aging pass over every record. -/
def connection_update (proto : Nat) (tcp udp : List (List Char))
    (s : CState) : Bool × CState :=
  match (if proto &&& TCPflag ≠ 0 then connection_update_ IPPROTO_TCP s tcp
         else (true, s)) with
  | (false, s1) => (false, s1)
  | (true, s1) =>
    match (if proto &&& UDPflag ≠ 0 then connection_update_ IPPROTO_UDP s1 udp
           else (true, s1)) with
    | (false, s2) => (false, s2)
    | (true, s2) => (true, aging s2)

/-- connection_init: the fresh table (key_type is the zero-initialised
static). -/
def initState : CState := { table := [], heap := [], nextId := 0, key_type := 0 }

/-- States reachable through the public interface: connection_init
followed by any sequence of connection_update calls (both succeeding and
failing updates leave their state behind). -/
inductive Reachable : CState → Prop where
  | init : Reachable initState
  | update {s : CState} (proto : Nat) (tcp udp : List (List Char)) :
      Reachable s → Reachable (connection_update proto tcp udp s).2

/-! ## dir.c — the fd-symlink vs inode matching loop

The loop at dir.c lines 159-190 builds, for each candidate inode N, the
string "socket:[N]", calls readlink on the fd's /proc path into
temp_buff (a 1000-byte buffer, reading at most 99 bytes), writes a NUL
terminator at index len_link, and prints a match when
strncmp(socket, temp_buff, len_link) is zero.  readlink returns -1 on
failure (broken link, vanished fd, permission denied). -/

/-- strncmp equality on NUL-terminated strings restricted to the first
n characters: the lists carry the characters before the terminating NUL,
so exhausting a list is reaching its NUL. -/
def strncmpEq : List Char → List Char → Nat → Bool
  | _, _, 0 => true
  | [], [], _ + 1 => true
  | [], _ :: _, _ + 1 => false
  | _ :: _, [], _ + 1 => false
  | x :: xs, y :: ys, n + 1 => x = y && strncmpEq xs ys n

/-- Decimal rendering of the inode in snprintf(socket, 100,
"socket:[%d]", inode), via Nat.repr as the digit printer. -/
def socketStr (inode : Nat) : List Char :=
  ("socket:[" ++ Nat.repr inode ++ "]").toList

/-- Outcome of one iteration of the inner matching loop of dir.c for a
given fd symlink and candidate inode. -/
structure FdCheck where
  oob_write : Bool
  matched : Bool
deriving DecidableEq, Repr

/-- One iteration of the inner loop (dir.c lines 172-184): target is
the symlink's content when readlink succeeds, none when it fails.
On success at most 99 bytes are read and temp_buff[len_link] is set to
NUL, an in-bounds write.  On failure len_link is -1, so the statement
temp_buff[len_link] = 0 writes one byte before the buffer — an
out-of-bounds write, recorded in oob_write — and the subsequent strncmp
with (size_t)len_link compares against indeterminate buffer contents,
modelled as no match. -/
def check_fd_inode (target : Option (List Char)) (inode : Nat) : FdCheck :=
  let socket := socketStr inode
  match target with
  | none => { oob_write := true, matched := false }
  | some t =>
    let buf := t.take 99
    { oob_write := false, matched := strncmpEq socket buf buf.length }

/-! ## timer.c — sec2clock -/

/-- Conversion of an unsigned 64-bit count to C int by the cast
( int ) secs: reduction modulo 2^32 into the signed range. -/
def toInt32 (n : Nat) : Int :=
  let m : Nat := n % 2 ^ 32
  if m < 2 ^ 31 then (m : Int) else (m : Int) - 2 ^ 32

/-- Digit printing worker with explicit fuel, so that the definition is
structurally recursive and reduces inside the kernel; the fuel is always
sufficient when n < fuel. -/
def natDigitsF : Nat → Nat → List Char
  | 0, _ => []
  | fuel + 1, n =>
    if n < 10 then [Char.ofNat (48 + n)]
    else natDigitsF fuel (n / 10) ++ [Char.ofNat (48 + n % 10)]

/-- Digits of a natural number, most significant first (the %d digit
printer). -/
def natDigits (n : Nat) : List Char := natDigitsF (n + 1) n

/-- Rendering of an int by printf %d: optional minus sign then the
decimal digits of the magnitude. -/
def intStr (i : Int) : List Char :=
  if i < 0 then '-' :: natDigits (-i).toNat else natDigits i.toNat

/-- Rendering by %02d: the %d text, zero-padded on the left to width
at least 2. -/
def pad02 (i : Int) : List Char :=
  let s := intStr i
  if s.length < 2 then '0' :: s else s

/-- sec2clock (timer.c lines 65-78): snprintf(clock, 14,
"[percent]02d:[percent]02d:[percent]02d", (int) secs / 3600,
(int)(secs [percent] 3600) / 60, (int)(secs [percent] 3600) [percent]
60).  The argument is a uint64_t; each printed field goes through the
(int) cast; Int.tdiv and Int.tmod are C's truncating division and
remainder; snprintf cuts the text to 13 characters plus the
terminator. -/
def sec2clock (secs : Nat) : List Char :=
  let h := Int.tdiv (toInt32 secs) 3600
  let m := Int.tdiv (toInt32 (secs % 3600)) 60
  let s := Int.tmod (toInt32 (secs % 3600)) 60
  (pad02 h ++ ':' :: pad02 m ++ ':' :: pad02 s).take 13

/-! ## Derived definitions used by the verification -/

/-- Number of table entries keyed by the inode i. -/
def countInode : List (HKey × ConnId) → Nat → Nat
  | [], _ => 0
  | (k, _) :: rest, i =>
    (if k = HKey.inode i then 1 else 0) + countInode rest i

/-- Structural invariant of the connection table, maintained by every
connection_update (successful or not) from connection_init onwards:
every inode entry points to a live record carrying that inode; no inode
is indexed twice; every live record is indexed under its inode; every
live record holds 1 or 2 references; allocation ids below the table are
below the allocation counter.  The tuple side of the table deliberately
has no such clauses: tuple entries can alias and can dangle. -/
structure Inv (s : CState) : Prop where
  inodeLive : ∀ i id, (HKey.inode i, id) ∈ s.table →
    ∃ c, heapGet s.heap id = some c ∧ c.inode = i
  inodeUnique : ∀ i, countInode s.table i ≤ 1
  liveIndexed : ∀ id c, heapGet s.heap id = some c →
    (HKey.inode c.inode, id) ∈ s.table
  liveUse : ∀ id c, heapGet s.heap id = some c → c.use = 1 ∨ c.use = 2
  idBound : ∀ e, e ∈ s.table → e.2 < s.nextId

/-- Between updates every record has been reset to inactive by the aging
pass; a failed update can leave active records behind, so this is a
property of successful updates only. -/
def AllInactive (s : CState) : Prop :=
  ∀ id c, heapGet s.heap id = some c → c.active = false

/-- The line parses and names the inode in a state that
connection_update_ does not skip (neither TIME_WAIT nor LISTEN). -/
def lineTouches (l : List Char) (i : Nat) : Bool :=
  match parse_line l with
  | some pl => pl.inode == i &&
      !(pl.state == TCP_TIME_WAIT || pl.state == TCP_LISTEN)
  | none => false

/-- The inode appears, in a non-skipped state, in one of the kernel-file
snapshots that connection_update proto tcp udp reads (data lines only:
the first line of each file is its header). -/
def filesObserve (proto : Nat) (tcp udp : List (List Char)) (i : Nat) :
    Bool :=
  ((if proto &&& TCPflag ≠ 0 then tcp.drop 1 else []) ++
   (if proto &&& UDPflag ≠ 0 then udp.drop 1 else [])).any
    (fun l => lineTouches l i)

/-- Uppercase hexadecimal digit character (the kernel renders the
address and port columns in uppercase hex). -/
def hexDigitChar (n : Nat) : Char :=
  Char.ofNat (if n < 10 then 48 + n else 55 + n)

/-- Fixed-width uppercase hexadecimal rendering, most significant digit
first, as the kernel writes addresses (width 8), ports (width 4) and
states (width 2). -/
def hexRender : Nat → Nat → List Char
  | 0, _ => []
  | w + 1, n => hexDigitChar (n / 16 ^ w % 16) :: hexRender w n

/-- Value read from a digit string by the hexadecimal scanner. -/
def hexValList (l : List Char) : Nat := (scanDigits hexVal? 16 0 l).1

/-- A well-formed kernel connection-file line with the given address
fields, ports, state and inode; the queue, timer, retransmit, uid and
timeout columns are fixed at zero (they are parsed but ignored). -/
def mkKernelLine (la : List Char) (lp : Nat) (ra : List Char)
    (rp st ino : Nat) : List Char :=
  '1' :: ':' :: ' ' ::
  (la ++ ':' :: (hexRender 4 lp ++ ' ' ::
  (ra ++ ':' :: (hexRender 4 rp ++ ' ' ::
  (hexRender 2 st ++ ' ' :: '0' :: ':' :: '0' :: ' ' :: '0' :: ':' ::
   '0' :: ' ' :: '0' :: ' ' :: '0' :: ' ' :: '0' :: ' ' ::
   natDigits ino)))))

/-! ## Concrete scenario data (executable instances of the claims)

All scenarios feed connection_update with well-formed kernel-file texts
built by mkKernelLine; 0xAB/0xCD etc. are the parsed address values. -/

/-- A header line (its content is ignored by connection_update_). -/
def hdrLine : List Char := ['s', 'l']

/-- The tuple parsed from local address "AB", remote "CD", ports 0x50,
protocol TCP. -/
def tupleAB : Tuple :=
  { local_ip := 0xAB, remote_ip := 0xCD, local_port := 0x50,
    remote_port := 0x50, protocol := 6 }

/-- The tuple parsed from local address "AC" (the inode-reuse partner of
tupleAB). -/
def tupleAC : Tuple :=
  { local_ip := 0xAC, remote_ip := 0xCD, local_port := 0x50,
    remote_port := 0x50, protocol := 6 }

/-- Kernel line: inode 50000 with tuple tupleAB, ESTABLISHED. -/
def c2Line1 : List Char := mkKernelLine ['A', 'B'] 0x50 ['C', 'D'] 0x50 1 50000

/-- Kernel line: inode 50000 with tuple tupleAC, ESTABLISHED. -/
def c2Line2 : List Char := mkKernelLine ['A', 'C'] 0x50 ['C', 'D'] 0x50 1 50000

/-- State after scanning c2Line1 from a fresh table. -/
def c2State1 : CState :=
  (connection_update 1 [hdrLine, c2Line1] [] initState).2

/-- State after next scanning c2Line2 (same inode, different tuple). -/
def c2State2 : CState :=
  (connection_update 1 [hdrLine, c2Line2] [] c2State1).2

/-- Kernel line: inode 100 with tuple tupleAB. -/
def aliasLine1 : List Char := mkKernelLine ['A', 'B'] 0x50 ['C', 'D'] 0x50 1 100

/-- Kernel line: inode 200 with the same tuple tupleAB. -/
def aliasLine2 : List Char := mkKernelLine ['A', 'B'] 0x50 ['C', 'D'] 0x50 1 200

/-- State after scanning inode 100 (record 0) and then, one tick later,
inode 200 with the same tuple (record 1): two live records share the
tuple. -/
def aliasState2 : CState :=
  (connection_update 1 [hdrLine, aliasLine2] []
    (connection_update 1 [hdrLine, aliasLine1] [] initState).2).2

/-- One further update with an empty snapshot: record 0 is evicted, and
its connection_remove takes record 1's tuple entry with it, leaving
record 0's tuple entry dangling. -/
def aliasState3 : CState :=
  (connection_update 1 [hdrLine] [] aliasState2).2

/-- Kernel line: inode 777, tuple tupleAB. -/
def wLine777 : List Char := mkKernelLine ['A', 'B'] 0x50 ['C', 'D'] 0x50 1 777

/-- Kernel line: inode 888, local address "BB". -/
def wLine888 : List Char := mkKernelLine ['B', 'B'] 0x50 ['C', 'D'] 0x50 1 888

/-- Seed state holding records for inodes 777 and 888. -/
def wS0 : CState :=
  (connection_update 1 [hdrLine, wLine777, wLine888] [] initState).2

/-- After one update observing only 888. -/
def wS1 : CState := (connection_update 1 [hdrLine, wLine888] [] wS0).2

/-- After a second update observing only 888. -/
def wS2 : CState := (connection_update 1 [hdrLine, wLine888] [] wS1).2

/-- The aging counterexample run: inode 777 seen, missed, seen, missed. -/
def mLine777 : List Char := wLine777

/-- Tick 1: 777 seen. -/
def mS1 : CState := (connection_update 1 [hdrLine, mLine777] [] initState).2

/-- Tick 2: 777 missed. -/
def mS2 : CState := (connection_update 1 [hdrLine] [] mS1).2

/-- Tick 3: 777 seen again. -/
def mS3 : CState := (connection_update 1 [hdrLine, mLine777] [] mS2).2

/-- Tick 4: 777 missed; the claim says a connection present in snapshot
3 survives update 4. -/
def mS4 : CState := (connection_update 1 [hdrLine] [] mS3).2

/-- A TIME_WAIT/LISTEN test line: state 0x0A (TCP_LISTEN), inode 333. -/
def listenLine : List Char := mkKernelLine ['A', 'B'] 0x50 ['C', 'D'] 0x50 10 333

/-! # Theorems

## Heap lemmas -/

theorem heapGet_erase (h : List (ConnId × Connection)) (id id' : ConnId) :
    heapGet (heapErase h id) id' =
      if id' = id then none else heapGet h id' := by
  induction h with
  | nil => simp [heapErase, heapGet]
  | cons p t ih =>
    rcases p with ⟨a, c⟩
    simp only [heapErase]
    by_cases ha : a = id
    · rw [if_pos ha, ih]
      by_cases hb : id' = id
      · simp [hb]
      · have hne : a ≠ id' := fun h1 => hb (by rw [← h1, ha])
        simp [hb, heapGet, hne]
    · rw [if_neg ha]
      by_cases hc : a = id'
      · have hb : id' ≠ id := fun h1 => ha (by rw [hc, h1])
        simp [heapGet, hc, hb]
      · simp [heapGet, hc, ih]

theorem heapGet_set (h : List (ConnId × Connection)) (id id' : ConnId)
    (c : Connection) :
    heapGet (heapSet h id c) id' =
      if id' = id then some c else heapGet h id' := by
  by_cases hb : id' = id
  · simp [heapSet, heapGet, hb]
  · have : id ≠ id' := fun h1 => hb h1.symm
    simp [heapSet, heapGet, this, heapGet_erase, hb]

/-! ## Key comparison and table lemmas -/

theorem compare_inode (k : HKey) (i : Nat) :
    ht_cb_compare KEY_INODE k (.inode i) = true ↔ k = HKey.inode i := by
  cases k <;> simp [ht_cb_compare, KEY_INODE]

theorem compare_tuple (k : HKey) (t : Tuple) :
    ht_cb_compare KEY_TUPLE k (.tuple t) = true ↔ k = HKey.tuple t := by
  cases k <;> simp [ht_cb_compare, KEY_TUPLE, KEY_INODE]

theorem compare_inode_false {k : HKey} {i : Nat} (hk : k ≠ HKey.inode i) :
    ht_cb_compare KEY_INODE k (.inode i) = false := by
  cases hcmp : ht_cb_compare KEY_INODE k (.inode i)
  · rfl
  · exact absurd ((compare_inode k i).mp hcmp) hk

theorem compare_tuple_false {k : HKey} {t : Tuple} (hk : k ≠ HKey.tuple t) :
    ht_cb_compare KEY_TUPLE k (.tuple t) = false := by
  cases hcmp : ht_cb_compare KEY_TUPLE k (.tuple t)
  · rfl
  · exact absurd ((compare_tuple k t).mp hcmp) hk

theorem countInode_pos_of_mem {tbl : List (HKey × ConnId)} {i : Nat}
    {id : ConnId} (h : (HKey.inode i, id) ∈ tbl) :
    1 ≤ countInode tbl i := by
  induction tbl with
  | nil => cases h
  | cons e t ih =>
    rcases e with ⟨k, x⟩
    rcases List.mem_cons.mp h with h1 | h1
    · cases h1; simp [countInode]
    · have := ih h1; simp [countInode]; omega

theorem mem_inode_unique {tbl : List (HKey × ConnId)} {i : Nat}
    {a b : ConnId} (hu : countInode tbl i ≤ 1)
    (ha : (HKey.inode i, a) ∈ tbl) (hb : (HKey.inode i, b) ∈ tbl) :
    a = b := by
  induction tbl with
  | nil => cases ha
  | cons e t ih =>
    rcases e with ⟨k, x⟩
    simp only [countInode] at hu
    rcases List.mem_cons.mp ha with h1 | h1 <;>
      rcases List.mem_cons.mp hb with h2 | h2
    · cases h1; cases h2; rfl
    · cases h1
      have : 1 ≤ countInode t i := countInode_pos_of_mem h2
      simp at hu; omega
    · cases h2
      have : 1 ≤ countInode t i := countInode_pos_of_mem h1
      simp at hu; omega
    · exact ih (by split at hu <;> omega) h1 h2

theorem htGetGo_inode_none {tbl : List (HKey × ConnId)} {i : Nat} :
    htGetGo KEY_INODE tbl (.inode i) = none ↔ countInode tbl i = 0 := by
  induction tbl with
  | nil => simp [htGetGo, countInode]
  | cons e t ih =>
    rcases e with ⟨k, x⟩
    by_cases hk : k = HKey.inode i
    · subst hk; simp [htGetGo, compare_inode, countInode]
    · have hc : ht_cb_compare KEY_INODE k (.inode i) = false :=
        compare_inode_false hk
      simp [htGetGo, hc, countInode, hk, ih]

theorem htGetGo_inode_some_mem {tbl : List (HKey × ConnId)} {i : Nat}
    {id : ConnId} (h : htGetGo KEY_INODE tbl (.inode i) = some id) :
    (HKey.inode i, id) ∈ tbl := by
  induction tbl with
  | nil => cases h
  | cons e t ih =>
    rcases e with ⟨k, x⟩
    by_cases hc : ht_cb_compare KEY_INODE k (.inode i) = true
    · rw [htGetGo, if_pos hc] at h
      cases h
      rw [(compare_inode k i).mp hc]
      exact List.mem_cons_self _ _
    · rw [htGetGo, if_neg hc] at h
      exact List.mem_cons_of_mem _ (ih h)

theorem htGetGo_inode_of_mem {tbl : List (HKey × ConnId)} {i : Nat}
    {id : ConnId} (hu : countInode tbl i ≤ 1)
    (hm : (HKey.inode i, id) ∈ tbl) :
    htGetGo KEY_INODE tbl (.inode i) = some id := by
  induction tbl with
  | nil => cases hm
  | cons e t ih =>
    rcases e with ⟨k, x⟩
    simp only [countInode] at hu
    by_cases hk : k = HKey.inode i
    · subst hk
      rw [htGetGo, if_pos ((compare_inode _ i).mpr rfl)]
      rcases List.mem_cons.mp hm with h1 | h1
    
      · cases h1; rfl
      · have : 1 ≤ countInode t i := countInode_pos_of_mem h1
        simp at hu; omega
    · have hc : ht_cb_compare KEY_INODE k (.inode i) = false :=
        compare_inode_false hk
      rw [htGetGo, if_neg (by simp [hc])]
      rcases List.mem_cons.mp hm with h1 | h1
      · cases h1; exact absurd rfl hk
      · exact ih (by split at hu <;> omega) h1

theorem mem_of_mem_htRemove {kt : Nat} {tbl : List (HKey × ConnId)}
    {probe : HKey} {e : HKey × ConnId}
    (h : e ∈ htRemoveGo kt tbl probe) : e ∈ tbl := by
  induction tbl with
  | nil => cases h
  | cons f t ih =>
    rcases f with ⟨k, x⟩
    by_cases hc : ht_cb_compare kt k probe = true
    · rw [htRemoveGo, if_pos hc] at h
      exact List.mem_cons_of_mem _ h
    · rw [htRemoveGo, if_neg hc] at h
      rcases List.mem_cons.mp h with h1 | h1
      · exact h1 ▸ List.mem_cons_self _ _
      · exact List.mem_cons_of_mem _ (ih h1)

theorem countInode_htRemove_inode_self (tbl : List (HKey × ConnId))
    (i : Nat) :
    countInode (htRemoveGo KEY_INODE tbl (.inode i)) i =
      countInode tbl i - 1 := by
  induction tbl with
  | nil => simp [htRemoveGo, countInode]
  | cons e t ih =>
    rcases e with ⟨k, x⟩
    by_cases hk : k = HKey.inode i
    · subst hk
      rw [htRemoveGo, if_pos ((compare_inode _ i).mpr rfl)]
      simp [countInode]
    · have hc : ht_cb_compare KEY_INODE k (.inode i) = false :=
        compare_inode_false hk
      rw [htRemoveGo, if_neg (by simp [hc])]
      simp [countInode, hk, ih]

theorem countInode_htRemove_inode_other {tbl : List (HKey × ConnId)}
    {i j : Nat} (hne : j ≠ i) :
    countInode (htRemoveGo KEY_INODE tbl (.inode i)) j =
      countInode tbl j := by
  induction tbl with
  | nil => simp [htRemoveGo]
  | cons e t ih =>
    rcases e with ⟨k, x⟩
    by_cases hc : ht_cb_compare KEY_INODE k (.inode i) = true
    · rw [htRemoveGo, if_pos hc]
      have hk := (compare_inode k i).mp hc
      subst hk
      have : HKey.inode i ≠ HKey.inode j := by
        intro h; cases h; exact hne rfl
      simp [countInode, this]
    · rw [htRemoveGo, if_neg hc]
      simp [countInode, ih]

theorem mem_htRemove_inode_of_ne {tbl : List (HKey × ConnId)}
    {i j : Nat} {id : ConnId} (hm : (HKey.inode j, id) ∈ tbl)
    (hne : j ≠ i) :
    (HKey.inode j, id) ∈ htRemoveGo KEY_INODE tbl (.inode i) := by
  induction tbl with
  | nil => cases hm
  | cons e t ih =>
    rcases e with ⟨k, x⟩
    by_cases hc : ht_cb_compare KEY_INODE k (.inode i) = true
    · rw [htRemoveGo, if_pos hc]
      have hk := (compare_inode k i).mp hc
      rcases List.mem_cons.mp hm with h1 | h1
      · rw [hk] at h1; cases h1; exact absurd rfl hne
      · exact h1
    · rw [htRemoveGo, if_neg hc]
      rcases List.mem_cons.mp hm with h1 | h1
      · exact h1 ▸ List.mem_cons_self _ _
      · exact List.mem_cons_of_mem _ (ih h1)

theorem countInode_htRemove_tuple (tbl : List (HKey × ConnId))
    (tp : Tuple) (j : Nat) :
    countInode (htRemoveGo KEY_TUPLE tbl (.tuple tp)) j =
      countInode tbl j := by
  induction tbl with
  | nil => simp [htRemoveGo]
  | cons e t ih =>
    rcases e with ⟨k, x⟩
    by_cases hc : ht_cb_compare KEY_TUPLE k (.tuple tp) = true
    · rw [htRemoveGo, if_pos hc]
      have hk := (compare_tuple k tp).mp hc
      subst hk
      simp [countInode]
    · rw [htRemoveGo, if_neg hc]
      simp [countInode, ih]

theorem mem_htRemove_tuple_of_inode {tbl : List (HKey × ConnId)}
    {tp : Tuple} {j : Nat} {id : ConnId}
    (hm : (HKey.inode j, id) ∈ tbl) :
    (HKey.inode j, id) ∈ htRemoveGo KEY_TUPLE tbl (.tuple tp) := by
  induction tbl with
  | nil => cases hm
  | cons e t ih =>
    rcases e with ⟨k, x⟩
    by_cases hc : ht_cb_compare KEY_TUPLE k (.tuple tp) = true
    · rw [htRemoveGo, if_pos hc]
      have hk := (compare_tuple k tp).mp hc
      rcases List.mem_cons.mp hm with h1 | h1
      · rw [hk] at h1; cases h1
      · exact h1
    · rw [htRemoveGo, if_neg hc]
      rcases List.mem_cons.mp hm with h1 | h1
      · exact h1 ▸ List.mem_cons_self _ _
      · exact List.mem_cons_of_mem _ (ih h1)

/-! ## Iteration order lemmas -/

theorem mem_foreachIds {tbl : List (HKey × ConnId)} {id : ConnId} :
    id ∈ foreachIds tbl ↔ ∃ k, (k, id) ∈ tbl := by
  induction tbl with
  | nil => simp [foreachIds]
  | cons e t ih =>
    rcases e with ⟨k, x⟩
    by_cases hx : x ∈ foreachIds t
    · simp only [foreachIds, if_pos hx]
      constructor
      · intro h
        rcases ih.mp h with ⟨k2, h2⟩
        exact ⟨k2, List.mem_cons_of_mem _ h2⟩
      · rintro ⟨k2, h2⟩
        rcases List.mem_cons.mp h2 with h3 | h3
        · cases h3; exact hx
        · exact ih.mpr ⟨k2, h3⟩
    · simp only [foreachIds, if_neg hx]
      constructor
      · intro h
        rcases List.mem_cons.mp h with h3 | h3
        · exact ⟨k, h3 ▸ List.mem_cons_self _ _⟩
        · rcases ih.mp h3 with ⟨k2, h2⟩
          exact ⟨k2, List.mem_cons_of_mem _ h2⟩
      · rintro ⟨k2, h2⟩
        rcases List.mem_cons.mp h2 with h3 | h3
        · cases h3; exact List.mem_cons_self _ _
        · exact List.mem_cons_of_mem _ (ih.mpr ⟨k2, h3⟩)

theorem foreachIds_nodup (tbl : List (HKey × ConnId)) :
    (foreachIds tbl).Nodup := by
  induction tbl with
  | nil => simp [foreachIds]
  | cons e t ih =>
    rcases e with ⟨k, x⟩
    by_cases hx : x ∈ foreachIds t
    · simpa [foreachIds, if_pos hx] using ih
    · simpa [foreachIds, if_neg hx] using ⟨hx, ih⟩

/-! ## Equation lemmas for the update steps -/

theorem get_by_inode_eq (s : CState) (i : Nat) :
    (connection_get_by_inode s i).2 =
      htGetGo KEY_INODE s.table (.inode i) := rfl

theorem get_by_tuple_eq (s : CState) (t : Tuple) :
    (connection_get_by_tuple s t).2 =
      htGetGo KEY_TUPLE s.table (.tuple t) := rfl

theorem connection_insert_eq (s : CState) (c : Connection) :
    connection_insert s c =
      { table := (HKey.tuple c.tuple, s.nextId) ::
                 (HKey.inode c.inode, s.nextId) :: s.table,
        heap := heapSet s.heap s.nextId { c with use := 2 },
        nextId := s.nextId + 1,
        key_type := KEY_TUPLE } := rfl

theorem connection_remove_eq (s : CState) (id : ConnId) (c : Connection) :
    connection_remove s id c =
      { table := htRemoveGo KEY_TUPLE
                   (htRemoveGo KEY_INODE s.table (.inode c.inode))
                   (.tuple c.tuple),
        heap := heapErase s.heap id,
        nextId := s.nextId,
        key_type := KEY_TUPLE } := rfl

theorem conn_line_step_skip {proto : Nat} {s : CState} {pl : ParsedLine}
    (hskip : pl.state = TCP_TIME_WAIT ∨ pl.state = TCP_LISTEN) :
    conn_line_step proto s pl = some s := by
  simp [conn_line_step, hskip]

theorem conn_line_step_hit {proto : Nat} {s : CState} {pl : ParsedLine}
    {id : ConnId} {c : Connection}
    (hskip : ¬(pl.state = TCP_TIME_WAIT ∨ pl.state = TCP_LISTEN))
    (hget : htGetGo KEY_INODE s.table (.inode pl.inode) = some id)
    (hc : heapGet s.heap id = some c) :
    conn_line_step proto s pl =
      some { s with key_type := KEY_INODE,
                    heap := heapSet s.heap id { c with active := true } } := by
  simp [conn_line_step, hskip, connection_get_by_inode, hashtable_get,
        hget, hc]

theorem conn_line_step_hit_dangling {proto : Nat} {s : CState}
    {pl : ParsedLine} {id : ConnId}
    (hskip : ¬(pl.state = TCP_TIME_WAIT ∨ pl.state = TCP_LISTEN))
    (hget : htGetGo KEY_INODE s.table (.inode pl.inode) = some id)
    (hc : heapGet s.heap id = none) :
    conn_line_step proto s pl = some { s with key_type := KEY_INODE } := by
  simp [conn_line_step, hskip, connection_get_by_inode, hashtable_get,
        hget, hc]

theorem conn_line_step_miss {proto : Nat} {s : CState} {pl : ParsedLine}
    {c : Connection}
    (hskip : ¬(pl.state = TCP_TIME_WAIT ∨ pl.state = TCP_LISTEN))
    (hget : htGetGo KEY_INODE s.table (.inode pl.inode) = none)
    (hcr : create_new_conn pl.inode pl.local_addr pl.rem_addr
      pl.local_port pl.rem_port pl.state proto = some c) :
    conn_line_step proto s pl =
      some (connection_insert { s with key_type := KEY_INODE } c) := by
  simp [conn_line_step, hskip, connection_get_by_inode, hashtable_get,
        hget, hcr]

theorem conn_line_step_miss_fail {proto : Nat} {s : CState}
    {pl : ParsedLine}
    (hskip : ¬(pl.state = TCP_TIME_WAIT ∨ pl.state = TCP_LISTEN))
    (hget : htGetGo KEY_INODE s.table (.inode pl.inode) = none)
    (hcr : create_new_conn pl.inode pl.local_addr pl.rem_addr
      pl.local_port pl.rem_port pl.state proto = none) :
    conn_line_step proto s pl = none := by
  simp [conn_line_step, hskip, connection_get_by_inode, hashtable_get,
        hget, hcr]

theorem conn_lines_parse_fail {proto : Nat} {s : CState}
    {l : List Char} {t : List (List Char)}
    (hp : parse_line l = none) :
    conn_lines proto s (l :: t) = (false, s) := by
  simp [conn_lines, hp]

theorem conn_lines_step_fail {proto : Nat} {s : CState} {l : List Char}
    {t : List (List Char)} {pl : ParsedLine}
    (hp : parse_line l = some pl)
    (hs : conn_line_step proto s pl = none) :
    conn_lines proto s (l :: t) = (false, s) := by
  simp [conn_lines, hp, hs]

theorem conn_lines_step {proto : Nat} {s s1 : CState} {l : List Char}
    {t : List (List Char)} {pl : ParsedLine}
    (hp : parse_line l = some pl)
    (hs : conn_line_step proto s pl = some s1) :
    conn_lines proto s (l :: t) = conn_lines proto s1 t := by
  simp [conn_lines, hp, hs]

theorem connection_update_eq (proto : Nat) (tcp udp : List (List Char))
    (s : CState) :
    connection_update proto tcp udp s =
      (match (if proto &&& TCPflag ≠ 0
              then connection_update_ IPPROTO_TCP s tcp
              else (true, s)) with
       | (false, s1) => (false, s1)
       | (true, s1) =>
         match (if proto &&& UDPflag ≠ 0
                then connection_update_ IPPROTO_UDP s1 udp
                else (true, s1)) with
         | (false, s2) => (false, s2)
         | (true, s2) => (true, aging s2)) := rfl

theorem remove_dead_conn_dangling {s : CState} {id : ConnId}
    (h : heapGet s.heap id = none) : remove_dead_conn s id = s := by
  simp [remove_dead_conn, h]

theorem remove_dead_conn_active {s : CState} {id : ConnId}
    {c : Connection} (hc : heapGet s.heap id = some c)
    (ha : c.active = true) :
    remove_dead_conn s id =
      { s with heap := heapSet s.heap id { c with active := false } } := by
  simp [remove_dead_conn, hc, ha]

theorem remove_dead_conn_dec {s : CState} {id : ConnId} {c : Connection}
    (hc : heapGet s.heap id = some c) (ha : c.active = false)
    (hu : ¬(c.use - 1 = 0)) :
    remove_dead_conn s id =
      { s with heap := heapSet s.heap id { c with use := c.use - 1 } } := by
  simp [remove_dead_conn, hc, ha, hu]

theorem remove_dead_conn_kill {s : CState} {id : ConnId} {c : Connection}
    (hc : heapGet s.heap id = some c) (ha : c.active = false)
    (hu : c.use - 1 = 0) :
    remove_dead_conn s id =
      connection_remove s id { c with use := c.use - 1 } := by
  simp [remove_dead_conn, hc, ha, hu]

/-! ## Facts about create_new_conn -/

theorem create_new_conn_fields {ino : Nat} {la ra : List Char}
    {lp rp st proto : Nat} {c : Connection}
    (h : create_new_conn ino la ra lp rp st proto = some c) :
    c.inode = ino ∧ c.active = true ∧ c.use = 0 ∧ c.state = st ∧
    c.tuple.local_port = lp ∧ c.tuple.remote_port = rp ∧
    c.tuple.protocol = proto := by
  unfold create_new_conn at h
  cases h1 : sscanf_hex la with
  | none => rw [h1] at h; cases h
  | some lip =>
    cases h2 : sscanf_hex ra with
    | none => rw [h1, h2] at h; cases h
    | some rip =>
      rw [h1, h2] at h
      cases h
      simp

/-! ## Invariant preservation -/

theorem inv_key_type {s : CState} (h : Inv s) (kt : Nat) :
    Inv { s with key_type := kt } :=
  ⟨h.inodeLive, h.inodeUnique, h.liveIndexed, h.liveUse, h.idBound⟩

theorem Inv.live_inode_inj {s : CState} (hInv : Inv s) {id1 id2 : ConnId}
    {c1 c2 : Connection} (h1 : heapGet s.heap id1 = some c1)
    (h2 : heapGet s.heap id2 = some c2) (he : c1.inode = c2.inode) :
    id1 = id2 :=
  mem_inode_unique (hInv.inodeUnique c1.inode) (hInv.liveIndexed _ _ h1)
    (by rw [he]; exact hInv.liveIndexed _ _ h2)

theorem inv_heap_update {s : CState} (hInv : Inv s) {id : ConnId}
    (c c' : Connection) (hc : heapGet s.heap id = some c)
    (hinode : c'.inode = c.inode) (huse : c'.use = 1 ∨ c'.use = 2) :
    Inv { s with heap := heapSet s.heap id c' } := by
  refine ⟨?_, ?_, ?_, ?_, ?_⟩
  · intro i id' hm
    rcases hInv.inodeLive i id' hm with ⟨c2, hc2, hi2⟩
    by_cases hid : id' = id
    · subst hid
      rw [hc] at hc2
      cases hc2
      exact ⟨c', by simp [heapGet_set], by rw [hinode, hi2]⟩
    · exact ⟨c2, by rw [heapGet_set, if_neg hid]; exact hc2, hi2⟩
  · exact hInv.inodeUnique
  · intro id' c2 hc2
    rw [heapGet_set] at hc2
    by_cases hid : id' = id
    · rw [if_pos hid] at hc2
      cases hc2
      subst hid
      rw [hinode]
      exact hInv.liveIndexed _ _ hc
    · rw [if_neg hid] at hc2
      exact hInv.liveIndexed _ _ hc2
  · intro id' c2 hc2
    rw [heapGet_set] at hc2
    by_cases hid : id' = id
    · rw [if_pos hid] at hc2; cases hc2; exact huse
    · rw [if_neg hid] at hc2; exact hInv.liveUse _ _ hc2
  · exact hInv.idBound

theorem inv_connection_insert {s : CState} (hInv : Inv s)
    {c : Connection}
    (hmiss : countInode s.table c.inode = 0) :
    Inv (connection_insert s c) := by
  rw [connection_insert_eq]
  refine ⟨?_, ?_, ?_, ?_, ?_⟩
  · intro i id' hm
    rcases List.mem_cons.mp hm with h1 | h1
    · cases h1
    · rcases List.mem_cons.mp h1 with h2 | h2
      · rcases h2
        refine ⟨{ c with use := 2 }, by simp [heapGet_set], rfl⟩
      · rcases hInv.inodeLive i id' h2 with ⟨c2, hc2, hi2⟩
        have hid : id' ≠ s.nextId := by
          have h5 : id' < s.nextId := hInv.idBound _ h2
          exact Nat.ne_of_lt h5
        exact ⟨c2, by rw [heapGet_set, if_neg hid]; exact hc2, hi2⟩
  · intro i
    by_cases hi : i = c.inode
    · subst hi
      simp [countInode, hmiss]
    · have hne : HKey.inode c.inode ≠ HKey.inode i := by
        intro h; cases h; exact hi rfl
      have h2 := hInv.inodeUnique i
      simpa [countInode, hne] using h2
  · intro id' c2 hc2
    rw [heapGet_set] at hc2
    by_cases hid : id' = s.nextId
    · rw [if_pos hid] at hc2
      cases hc2
      subst hid
      exact List.mem_cons_of_mem _ (List.mem_cons_self _ _)
    · rw [if_neg hid] at hc2
      exact List.mem_cons_of_mem _
        (List.mem_cons_of_mem _ (hInv.liveIndexed _ _ hc2))
  · intro id' c2 hc2
    rw [heapGet_set] at hc2
    by_cases hid : id' = s.nextId
    · rw [if_pos hid] at hc2; cases hc2; right; rfl
    · rw [if_neg hid] at hc2; exact hInv.liveUse _ _ hc2
  · intro e he
    rcases List.mem_cons.mp he with h1 | h1
    · cases h1; simp
    · rcases List.mem_cons.mp h1 with h2 | h2
      · cases h2; simp
      · have h3 : e.2 < s.nextId := hInv.idBound _ h2
        show e.2 < s.nextId + 1
        exact Nat.lt_succ_of_lt h3

theorem inv_connection_remove {s : CState} (hInv : Inv s) {id : ConnId}
    {c : Connection} (hc : heapGet s.heap id = some c) :
    Inv (connection_remove s id { c with use := c.use - 1 }) := by
  rw [connection_remove_eq]
  dsimp only
  have hcount1 : 1 ≤ countInode s.table c.inode :=
    countInode_pos_of_mem (hInv.liveIndexed _ _ hc)
  have hzero : countInode
      (htRemoveGo KEY_TUPLE
        (htRemoveGo KEY_INODE s.table (.inode c.inode))
        (.tuple c.tuple)) c.inode = 0 := by
    rw [countInode_htRemove_tuple, countInode_htRemove_inode_self]
    have := hInv.inodeUnique c.inode
    omega
  refine ⟨?_, ?_, ?_, ?_, ?_⟩
  · intro i id' hm
    have hm0 : (HKey.inode i, id') ∈ s.table :=
      mem_of_mem_htRemove (mem_of_mem_htRemove hm)
    rcases hInv.inodeLive i id' hm0 with ⟨c2, hc2, hi2⟩
    by_cases hid : id' = id
    · exfalso
      have hi3 : i = c.inode := by
        rw [hid, hc] at hc2
        cases hc2
        exact hi2.symm
      have hm2 : (HKey.inode c.inode, id') ∈
          htRemoveGo KEY_TUPLE
            (htRemoveGo KEY_INODE s.table (.inode c.inode))
            (.tuple c.tuple) := by
        have hm3 : (HKey.inode i, id') ∈
            htRemoveGo KEY_TUPLE
              (htRemoveGo KEY_INODE s.table (.inode c.inode))
              (.tuple c.tuple) := hm
        rw [hi3] at hm3
        exact hm3
      have h6 := countInode_pos_of_mem hm2
      omega
    · exact ⟨c2, by rw [heapGet_erase, if_neg hid]; exact hc2, hi2⟩
  · intro i
    rw [countInode_htRemove_tuple]
    by_cases hi : i = c.inode
    · subst hi
      rw [countInode_htRemove_inode_self]
      have h4 := hInv.inodeUnique c.inode
      omega
    · rw [countInode_htRemove_inode_other hi]
      exact hInv.inodeUnique i
  · intro id' c2 hc2
    rw [heapGet_erase] at hc2
    by_cases hid : id' = id
    · rw [if_pos hid] at hc2; cases hc2
    · rw [if_neg hid] at hc2
      have hm0 := hInv.liveIndexed _ _ hc2
      have hne : c2.inode ≠ c.inode := by
        intro h
        exact hid (hInv.live_inode_inj hc2 hc h)
      exact mem_htRemove_tuple_of_inode
        (mem_htRemove_inode_of_ne hm0 hne)
  · intro id' c2 hc2
    rw [heapGet_erase] at hc2
    by_cases hid : id' = id
    · rw [if_pos hid] at hc2; cases hc2
    · rw [if_neg hid] at hc2; exact hInv.liveUse _ _ hc2
  · intro e he
    exact hInv.idBound _ (mem_of_mem_htRemove (mem_of_mem_htRemove he))

theorem inv_remove_dead_conn {s : CState} (hInv : Inv s) (id : ConnId) :
    Inv (remove_dead_conn s id) := by
  cases hc : heapGet s.heap id with
  | none => rw [remove_dead_conn_dangling hc]; exact hInv
  | some c =>
    cases ha : c.active with
    | true =>
      rw [remove_dead_conn_active hc ha]
      exact inv_heap_update hInv c { c with active := false } hc rfl
        (show c.use = 1 ∨ c.use = 2 from hInv.liveUse _ _ hc)
    | false =>
      by_cases hu : c.use - 1 = 0
      · rw [remove_dead_conn_kill hc ha hu]
        exact inv_connection_remove hInv hc
      · rw [remove_dead_conn_dec hc ha hu]
        refine inv_heap_update hInv c { c with use := c.use - 1 } hc rfl ?_
        show c.use - 1 = 1 ∨ c.use - 1 = 2
        rcases hInv.liveUse _ _ hc with h | h <;> rw [h] at hu ⊢
        · exact absurd rfl hu
        · left; rfl

theorem inv_aging_fold {L : List ConnId} :
    ∀ {s : CState}, Inv s → Inv (L.foldl remove_dead_conn s) := by
  induction L with
  | nil => intro s h; exact h
  | cons j t ih =>
    intro s h
    exact ih (inv_remove_dead_conn h j)

theorem inv_aging {s : CState} (hInv : Inv s) : Inv (aging s) :=
  inv_aging_fold hInv

theorem inv_conn_line_step {proto : Nat} {s s' : CState}
    {pl : ParsedLine} (hInv : Inv s)
    (h : conn_line_step proto s pl = some s') : Inv s' := by
  by_cases hskip : pl.state = TCP_TIME_WAIT ∨ pl.state = TCP_LISTEN
  · rw [conn_line_step_skip hskip] at h
    cases h
    exact hInv
  · cases hget : htGetGo KEY_INODE s.table (HKey.inode pl.inode) with
    | some id =>
      cases hc : heapGet s.heap id with
      | some c =>
        rw [conn_line_step_hit hskip hget hc] at h
        cases h
        exact inv_heap_update (inv_key_type hInv KEY_INODE) c
          { c with active := true } hc rfl
          (show c.use = 1 ∨ c.use = 2 from hInv.liveUse _ _ hc)
      | none =>
        rw [conn_line_step_hit_dangling hskip hget hc] at h
        cases h
        exact inv_key_type hInv KEY_INODE
    | none =>
      cases hcr : create_new_conn pl.inode pl.local_addr pl.rem_addr
          pl.local_port pl.rem_port pl.state proto with
      | some c =>
        rw [conn_line_step_miss hskip hget hcr] at h
        cases h
        have hmiss : countInode s.table c.inode = 0 := by
          rw [(create_new_conn_fields hcr).1]
          exact htGetGo_inode_none.mp hget
        exact inv_connection_insert (inv_key_type hInv KEY_INODE) hmiss
      | none =>
        rw [conn_line_step_miss_fail hskip hget hcr] at h
        cases h

theorem inv_conn_lines {proto : Nat} {lines : List (List Char)} :
    ∀ {s : CState}, Inv s → Inv (conn_lines proto s lines).2 := by
  induction lines with
  | nil => intro s h; exact h
  | cons l t ih =>
    intro s h
    cases hp : parse_line l with
    | none => rw [conn_lines_parse_fail hp]; exact h
    | some pl =>
      cases hstep : conn_line_step proto s pl with
      | none => rw [conn_lines_step_fail hp hstep]; exact h
      | some s1 =>
        rw [conn_lines_step hp hstep]
        exact ih (inv_conn_line_step h hstep)

theorem inv_connection_update_ {proto : Nat} {file : List (List Char)}
    {s : CState} (hInv : Inv s) :
    Inv (connection_update_ proto s file).2 := by
  cases file with
  | nil => exact hInv
  | cons hd t => exact inv_conn_lines hInv

theorem inv_connection_update {proto : Nat} {tcp udp : List (List Char)}
    {s : CState} (hInv : Inv s) :
    Inv (connection_update proto tcp udp s).2 := by
  rw [connection_update_eq]
  rcases h1 : (if proto &&& TCPflag ≠ 0
      then connection_update_ IPPROTO_TCP s tcp else (true, s))
    with ⟨ok1, s1⟩
  have hInv1 : Inv s1 := by
    by_cases hp : proto &&& TCPflag ≠ 0
    · rw [if_pos hp] at h1
      have h3 := @inv_connection_update_ IPPROTO_TCP tcp _ hInv
      rw [h1] at h3
      exact h3
    · rw [if_neg hp] at h1
      cases h1
      exact hInv
  cases ok1 with
  | false => exact hInv1
  | true =>
    dsimp only
    rcases h2 : (if proto &&& UDPflag ≠ 0
        then connection_update_ IPPROTO_UDP s1 udp else (true, s1))
      with ⟨ok2, s2⟩
    have hInv2 : Inv s2 := by
      by_cases hp : proto &&& UDPflag ≠ 0
      · rw [if_pos hp] at h2
        have h3 := @inv_connection_update_ IPPROTO_UDP udp _ hInv1
        rw [h2] at h3
        exact h3
      · rw [if_neg hp] at h2
        cases h2
        exact hInv1
    cases ok2 with
    | false => exact hInv2
    | true => exact inv_aging hInv2

theorem inv_init : Inv initState := by
  refine ⟨?_, ?_, ?_, ?_, ?_⟩ <;>
    intro a <;> simp [initState, countInode, heapGet]

theorem inv_reachable {s : CState} (h : Reachable s) : Inv s := by
  induction h with
  | init => exact inv_init
  | update proto tcp udp _ ih => exact inv_connection_update ih

/-! ## Frame lemmas: what an update step leaves untouched -/

theorem heapGet_remove_dead_ne {s : CState} {j i : ConnId} (hne : i ≠ j) :
    heapGet (remove_dead_conn s j).heap i = heapGet s.heap i := by
  cases hc : heapGet s.heap j with
  | none => rw [remove_dead_conn_dangling hc]
  | some c =>
    cases ha : c.active with
    | true =>
      rw [remove_dead_conn_active hc ha]
      show heapGet (heapSet s.heap j _) i = heapGet s.heap i
      rw [heapGet_set, if_neg hne]
    | false =>
      by_cases hu : c.use - 1 = 0
      · rw [remove_dead_conn_kill hc ha hu, connection_remove_eq]
        show heapGet (heapErase s.heap j) i = heapGet s.heap i
        rw [heapGet_erase, if_neg hne]
      · rw [remove_dead_conn_dec hc ha hu]
        show heapGet (heapSet s.heap j _) i = heapGet s.heap i
        rw [heapGet_set, if_neg hne]

theorem countInode_remove_dead_le (s : CState) (j : ConnId) (i : Nat) :
    countInode (remove_dead_conn s j).table i ≤ countInode s.table i := by
  cases hc : heapGet s.heap j with
  | none => rw [remove_dead_conn_dangling hc]
  | some c =>
    cases ha : c.active with
    | true =>
      rw [remove_dead_conn_active hc ha]
    | false =>
      by_cases hu : c.use - 1 = 0
      · rw [remove_dead_conn_kill hc ha hu, connection_remove_eq]
        show countInode (htRemoveGo KEY_TUPLE
          (htRemoveGo KEY_INODE s.table (.inode c.inode))
          (.tuple c.tuple)) i ≤ countInode s.table i
        rw [countInode_htRemove_tuple]
        by_cases hi : i = c.inode
        · subst hi
          rw [countInode_htRemove_inode_self]
          omega
        · rw [countInode_htRemove_inode_other hi]
      · rw [remove_dead_conn_dec hc ha hu]

theorem nextId_remove_dead (s : CState) (j : ConnId) :
    (remove_dead_conn s j).nextId = s.nextId := by
  cases hc : heapGet s.heap j with
  | none => rw [remove_dead_conn_dangling hc]
  | some c =>
    cases ha : c.active with
    | true => rw [remove_dead_conn_active hc ha]
    | false =>
      by_cases hu : c.use - 1 = 0
      · rw [remove_dead_conn_kill hc ha hu, connection_remove_eq]
      · rw [remove_dead_conn_dec hc ha hu]

theorem fold_preserves_dead {i : Nat} :
    ∀ (L : List ConnId) (s : CState) (id : ConnId),
    heapGet s.heap id = none → countInode s.table i = 0 →
    heapGet ((L.foldl remove_dead_conn s)).heap id = none ∧
      countInode ((L.foldl remove_dead_conn s)).table i = 0 := by
  intro L
  induction L with
  | nil => intro s id h1 h2; exact ⟨h1, h2⟩
  | cons j t ih =>
    intro s id h1 h2
    have h1' : heapGet (remove_dead_conn s j).heap id = none := by
      by_cases hij : id = j
      · subst hij
        rw [remove_dead_conn_dangling h1]
        exact h1
      · rw [heapGet_remove_dead_ne hij]
        exact h1
    have h2' : countInode (remove_dead_conn s j).table i = 0 := by
      have := countInode_remove_dead_le s j i
      omega
    exact ih _ id h1' h2'

theorem fold_frame_unvisited :
    ∀ (L : List ConnId) (s : CState) (id : ConnId), id ∉ L →
    heapGet ((L.foldl remove_dead_conn s)).heap id = heapGet s.heap id := by
  intro L
  induction L with
  | nil => intro s id h; rfl
  | cons j t ih =>
    intro s id h
    have h1 : id ≠ j := fun he => h (he ▸ List.mem_cons_self _ _)
    have h2 : id ∉ t := fun he => h (List.mem_cons_of_mem _ he)
    rw [List.foldl_cons, ih _ _ h2, heapGet_remove_dead_ne h1]

/-! ## Aging: per-record behaviour of the foreach pass -/

theorem aging_fold_inactive :
    ∀ (L : List ConnId) (s : CState) (id : ConnId) (c : Connection),
    Inv s → L.Nodup → heapGet s.heap id = some c → c.active = false →
    id ∈ L →
    (c.use = 1 →
      heapGet ((L.foldl remove_dead_conn s)).heap id = none ∧
      countInode ((L.foldl remove_dead_conn s)).table c.inode = 0) ∧
    (c.use = 2 →
      heapGet ((L.foldl remove_dead_conn s)).heap id =
        some { c with use := 1 }) := by
  intro L
  induction L with
  | nil => intro s id c _ _ _ _ hm; cases hm
  | cons j t ih =>
    intro s id c hInv hnd hc ha hm
    by_cases hij : j = id
    · subst hij
      have hnotin : j ∉ t := (List.nodup_cons.mp hnd).1
      constructor
      · intro huse1
        have hu0 : c.use - 1 = 0 := by omega
        rw [List.foldl_cons, remove_dead_conn_kill hc ha hu0,
            connection_remove_eq]
        refine fold_preserves_dead t _ j ?_ ?_
        · show heapGet (heapErase s.heap j) j = none
          rw [heapGet_erase, if_pos rfl]
        · show countInode (htRemoveGo KEY_TUPLE
            (htRemoveGo KEY_INODE s.table (.inode c.inode))
            (.tuple c.tuple)) c.inode = 0
          rw [countInode_htRemove_tuple, countInode_htRemove_inode_self]
          have h7 := hInv.inodeUnique c.inode
          have h8 := countInode_pos_of_mem (hInv.liveIndexed _ _ hc)
          omega
      · intro huse2
        have hu1 : ¬(c.use - 1 = 0) := by
          rw [huse2]
          decide
        rw [List.foldl_cons, remove_dead_conn_dec hc ha hu1,
            fold_frame_unvisited t _ j hnotin]
        show heapGet (heapSet s.heap j { c with use := c.use - 1 }) j =
          some { c with use := 1 }
        rw [heapGet_set, if_pos rfl, huse2]
        norm_num
    · have hne : id ≠ j := fun h => hij h.symm
      have hm' : id ∈ t := by
        rcases List.mem_cons.mp hm with h | h
        · exact absurd h hne
        · exact h
      have hc' : heapGet (remove_dead_conn s j).heap id = some c := by
        rw [heapGet_remove_dead_ne hne]
        exact hc
      rw [List.foldl_cons]
      exact ih (remove_dead_conn s j) id c (inv_remove_dead_conn hInv j)
        (List.nodup_cons.mp hnd).2 hc' ha hm'

theorem aging_fold_active :
    ∀ (L : List ConnId) (s : CState) (id : ConnId) (c : Connection),
    Inv s → L.Nodup → heapGet s.heap id = some c → c.active = true →
    id ∈ L →
    heapGet ((L.foldl remove_dead_conn s)).heap id =
      some { c with active := false } := by
  intro L
  induction L with
  | nil => intro s id c _ _ _ _ hm; cases hm
  | cons j t ih =>
    intro s id c hInv hnd hc ha hm
    by_cases hij : j = id
    · subst hij
      have hnotin : j ∉ t := (List.nodup_cons.mp hnd).1
      rw [List.foldl_cons, remove_dead_conn_active hc ha,
          fold_frame_unvisited t _ j hnotin]
      show heapGet (heapSet s.heap j { c with active := false }) j =
        some { c with active := false }
      rw [heapGet_set, if_pos rfl]
    · have hne : id ≠ j := fun h => hij h.symm
      have hm' : id ∈ t := by
        rcases List.mem_cons.mp hm with h | h
        · exact absurd h hne
        · exact h
      have hc' : heapGet (remove_dead_conn s j).heap id = some c := by
        rw [heapGet_remove_dead_ne hne]
        exact hc
      rw [List.foldl_cons]
      exact ih (remove_dead_conn s j) id c (inv_remove_dead_conn hInv j)
        (List.nodup_cons.mp hnd).2 hc' ha hm'

/-! ## The aging pass resets every surviving record to inactive -/

theorem remove_dead_visit_inactive {s : CState} {j : ConnId}
    {c' : Connection}
    (h : heapGet (remove_dead_conn s j).heap j = some c') :
    c'.active = false := by
  cases hc : heapGet s.heap j with
  | none =>
    rw [remove_dead_conn_dangling hc, hc] at h
    cases h
  | some c =>
    cases ha : c.active with
    | true =>
      rw [remove_dead_conn_active hc ha] at h
      have h2 : heapGet (heapSet s.heap j { c with active := false }) j =
          some { c with active := false } := by
        rw [heapGet_set, if_pos rfl]
      rw [h2] at h
      cases h
      rfl
    | false =>
      by_cases hu : c.use - 1 = 0
      · rw [remove_dead_conn_kill hc ha hu, connection_remove_eq] at h
        have h2 : heapGet (heapErase s.heap j) j = none := by
          rw [heapGet_erase, if_pos rfl]
        have h3 : heapGet (heapErase s.heap j) j = some c' := h
        rw [h2] at h3
        cases h3
      · rw [remove_dead_conn_dec hc ha hu] at h
        have h2 : heapGet (heapSet s.heap j { c with use := c.use - 1 }) j =
            some { c with use := c.use - 1 } := by
          rw [heapGet_set, if_pos rfl]
        rw [h2] at h
        cases h
        exact ha

theorem fold_all_inactive :
    ∀ (L : List ConnId) (s : CState),
    (∀ id c, heapGet s.heap id = some c → c.active = true → id ∈ L) →
    AllInactive ((L.foldl remove_dead_conn s)) := by
  intro L
  induction L with
  | nil =>
    intro s hyp id c hc
    cases ha : c.active with
    | false => rfl
    | true => exact absurd (hyp id c hc ha) (List.not_mem_nil id)
  | cons j t ih =>
    intro s hyp
    rw [List.foldl_cons]
    refine ih (remove_dead_conn s j) ?_
    intro id c hc ha
    by_cases hij : id = j
    · subst hij
      exact absurd (remove_dead_visit_inactive hc) (by rw [ha]; decide)
    · rw [heapGet_remove_dead_ne hij] at hc
      rcases List.mem_cons.mp (hyp id c hc ha) with h | h
      · exact absurd h hij
      · exact h

theorem allInactive_aging {s : CState} (hInv : Inv s) :
    AllInactive (aging s) :=
  fold_all_inactive _ s
    (fun id c h _ => mem_foreachIds.mpr ⟨_, hInv.liveIndexed _ _ h⟩)

theorem aging_nextId (s : CState) : (aging s).nextId = s.nextId := by
  show ((foreachIds s.table).foldl remove_dead_conn s).nextId = s.nextId
  generalize foreachIds s.table = L
  induction L generalizing s with
  | nil => rfl
  | cons j t ih => rw [List.foldl_cons, ih, nextId_remove_dead]

/-! ## Per-line effects of the update loop -/

theorem conn_set_active_self {c : Connection} (h : c.active = true) :
    { c with active := true } = c := by
  cases c
  simp only at h
  rw [h]

theorem conn_line_step_untouched {proto : Nat} {s s1 : CState}
    {pl : ParsedLine} {id : ConnId} {c : Connection} (hInv : Inv s)
    (hstep : conn_line_step proto s pl = some s1)
    (hc : heapGet s.heap id = some c)
    (hun : pl.inode ≠ c.inode ∨ pl.state = TCP_TIME_WAIT ∨
      pl.state = TCP_LISTEN) :
    heapGet s1.heap id = some c ∧
    countInode s1.table c.inode = countInode s.table c.inode ∧
    s.nextId ≤ s1.nextId := by
  by_cases hskip : pl.state = TCP_TIME_WAIT ∨ pl.state = TCP_LISTEN
  · rw [conn_line_step_skip hskip] at hstep
    cases hstep
    exact ⟨hc, rfl, Nat.le_refl _⟩
  · have hpi : pl.inode ≠ c.inode := by
      rcases hun with h | h
      · exact h
      · exact absurd h hskip
    cases hget : htGetGo KEY_INODE s.table (HKey.inode pl.inode) with
    | some id2 =>
      rcases hInv.inodeLive pl.inode id2 (htGetGo_inode_some_mem hget)
        with ⟨c2, hc2, hi2⟩
      rw [conn_line_step_hit hskip hget hc2] at hstep
      cases hstep
      have hne : id ≠ id2 := by
        intro h
        subst h
        rw [hc] at hc2
        cases hc2
        exact hpi hi2.symm
      refine ⟨?_, rfl, Nat.le_refl _⟩
      show heapGet (heapSet s.heap id2 { c2 with active := true }) id =
        some c
      rw [heapGet_set, if_neg hne]
      exact hc
    | none =>
      cases hcr : create_new_conn pl.inode pl.local_addr pl.rem_addr
          pl.local_port pl.rem_port pl.state proto with
      | some cNew =>
        rw [conn_line_step_miss hskip hget hcr] at hstep
        cases hstep
        rw [connection_insert_eq]
        have hid : id ≠ s.nextId :=
          Nat.ne_of_lt (hInv.idBound _ (hInv.liveIndexed _ _ hc))
        have hinew : cNew.inode = pl.inode := (create_new_conn_fields hcr).1
        refine ⟨?_, ?_, ?_⟩
        · show heapGet (heapSet s.heap s.nextId { cNew with use := 2 }) id =
            some c
          rw [heapGet_set, if_neg hid]
          exact hc
        · show countInode ((HKey.tuple cNew.tuple, s.nextId) ::
            (HKey.inode cNew.inode, s.nextId) :: s.table) c.inode =
            countInode s.table c.inode
          have hneq : HKey.inode cNew.inode ≠ HKey.inode c.inode := by
            intro h
            have h2 : cNew.inode = c.inode := by injection h
            exact hpi (by rw [← hinew]; exact h2)
          simp [countInode, hneq]
        · show s.nextId ≤ s.nextId + 1
          exact Nat.le_succ _
      | none =>
        rw [conn_line_step_miss_fail hskip hget hcr] at hstep
        cases hstep

theorem conn_line_step_dead {proto : Nat} {s s1 : CState}
    {pl : ParsedLine} {id : ConnId} {i : Nat}
    (hstep : conn_line_step proto s pl = some s1)
    (hdead : heapGet s.heap id = none) (hid : id < s.nextId)
    (hcount : countInode s.table i = 0)
    (hun : pl.inode ≠ i ∨ pl.state = TCP_TIME_WAIT ∨
      pl.state = TCP_LISTEN) :
    heapGet s1.heap id = none ∧ id < s1.nextId ∧
      countInode s1.table i = 0 := by
  by_cases hskip : pl.state = TCP_TIME_WAIT ∨ pl.state = TCP_LISTEN
  · rw [conn_line_step_skip hskip] at hstep
    cases hstep
    exact ⟨hdead, hid, hcount⟩
  · have hpi : pl.inode ≠ i := by
      rcases hun with h | h
      · exact h
      · exact absurd h hskip
    cases hget : htGetGo KEY_INODE s.table (HKey.inode pl.inode) with
    | some id2 =>
      cases hc2 : heapGet s.heap id2 with
      | some c2 =>
        rw [conn_line_step_hit hskip hget hc2] at hstep
        cases hstep
        have hne : id ≠ id2 := by
          intro h
          subst h
          rw [hdead] at hc2
          cases hc2
        refine ⟨?_, hid, hcount⟩
        show heapGet (heapSet s.heap id2 { c2 with active := true }) id =
          none
        rw [heapGet_set, if_neg hne]
        exact hdead
      | none =>
        rw [conn_line_step_hit_dangling hskip hget hc2] at hstep
        cases hstep
        exact ⟨hdead, hid, hcount⟩
    | none =>
      cases hcr : create_new_conn pl.inode pl.local_addr pl.rem_addr
          pl.local_port pl.rem_port pl.state proto with
      | some cNew =>
        rw [conn_line_step_miss hskip hget hcr] at hstep
        cases hstep
        rw [connection_insert_eq]
        have hid2 : id ≠ s.nextId := Nat.ne_of_lt hid
        have hinew : cNew.inode = pl.inode := (create_new_conn_fields hcr).1
        refine ⟨?_, ?_, ?_⟩
        · show heapGet (heapSet s.heap s.nextId { cNew with use := 2 }) id =
            none
          rw [heapGet_set, if_neg hid2]
          exact hdead
        · show id < s.nextId + 1
          exact Nat.lt_succ_of_lt hid
        · show countInode ((HKey.tuple cNew.tuple, s.nextId) ::
            (HKey.inode cNew.inode, s.nextId) :: s.table) i = 0
          have hneq : HKey.inode cNew.inode ≠ HKey.inode i := by
            intro h
            have h2 : cNew.inode = i := by injection h
            exact hpi (by rw [← hinew]; exact h2)
          simp [countInode, hneq, hcount]
      | none =>
        rw [conn_line_step_miss_fail hskip hget hcr] at hstep
        cases hstep

theorem conn_line_step_keep_active {proto : Nat} {s s1 : CState}
    {pl : ParsedLine} {id : ConnId} {c : Connection} (hInv : Inv s)
    (hstep : conn_line_step proto s pl = some s1)
    (hc : heapGet s.heap id = some c) (ha : c.active = true) :
    heapGet s1.heap id = some c := by
  by_cases hskip : pl.state = TCP_TIME_WAIT ∨ pl.state = TCP_LISTEN
  · rw [conn_line_step_skip hskip] at hstep
    cases hstep
    exact hc
  · cases hget : htGetGo KEY_INODE s.table (HKey.inode pl.inode) with
    | some id2 =>
      cases hc2 : heapGet s.heap id2 with
      | some c2 =>
        rw [conn_line_step_hit hskip hget hc2] at hstep
        cases hstep
        show heapGet (heapSet s.heap id2 { c2 with active := true }) id =
          some c
        by_cases hne : id = id2
        · subst hne
          rw [hc] at hc2
          cases hc2
          rw [heapGet_set, if_pos rfl, conn_set_active_self ha]
        · rw [heapGet_set, if_neg hne]
          exact hc
      | none =>
        rw [conn_line_step_hit_dangling hskip hget hc2] at hstep
        cases hstep
        exact hc
    | none =>
      cases hcr : create_new_conn pl.inode pl.local_addr pl.rem_addr
          pl.local_port pl.rem_port pl.state proto with
      | some cNew =>
        rw [conn_line_step_miss hskip hget hcr] at hstep
        cases hstep
        have hid : id ≠ s.nextId :=
          Nat.ne_of_lt (hInv.idBound _ (hInv.liveIndexed _ _ hc))
        rw [connection_insert_eq]
        show heapGet (heapSet s.heap s.nextId { cNew with use := 2 }) id =
          some c
        rw [heapGet_set, if_neg hid]
        exact hc
      | none =>
        rw [conn_line_step_miss_fail hskip hget hcr] at hstep
        cases hstep

theorem conn_line_step_touch {proto : Nat} {s s1 : CState}
    {pl : ParsedLine} (hInv : Inv s)
    (hstep : conn_line_step proto s pl = some s1)
    (hns : ¬(pl.state = TCP_TIME_WAIT ∨ pl.state = TCP_LISTEN)) :
    ∃ id c, heapGet s1.heap id = some c ∧ c.inode = pl.inode ∧
      c.active = true := by
  cases hget : htGetGo KEY_INODE s.table (HKey.inode pl.inode) with
  | some id2 =>
    rcases hInv.inodeLive pl.inode id2 (htGetGo_inode_some_mem hget)
      with ⟨c2, hc2, hi2⟩
    rw [conn_line_step_hit hns hget hc2] at hstep
    cases hstep
    refine ⟨id2, { c2 with active := true }, ?_, hi2, rfl⟩
    show heapGet (heapSet s.heap id2 { c2 with active := true }) id2 =
      some { c2 with active := true }
    rw [heapGet_set, if_pos rfl]
  | none =>
    cases hcr : create_new_conn pl.inode pl.local_addr pl.rem_addr
        pl.local_port pl.rem_port pl.state proto with
    | some cNew =>
      rw [conn_line_step_miss hns hget hcr] at hstep
      cases hstep
      rcases create_new_conn_fields hcr with ⟨hi, ha, _⟩
      refine ⟨s.nextId, { cNew with use := 2 }, ?_, hi, ha⟩
      rw [connection_insert_eq]
      show heapGet (heapSet s.heap s.nextId { cNew with use := 2 })
        s.nextId = some { cNew with use := 2 }
      rw [heapGet_set, if_pos rfl]
    | none =>
      rw [conn_line_step_miss_fail hns hget hcr] at hstep
      cases hstep

/-! ## Folding the per-line effects over a whole file -/

theorem lineTouches_false_elim {l : List Char} {i : Nat} {pl : ParsedLine}
    (hp : parse_line l = some pl) (h : lineTouches l i = false) :
    pl.inode ≠ i ∨ pl.state = TCP_TIME_WAIT ∨ pl.state = TCP_LISTEN := by
  unfold lineTouches at h
  rw [hp] at h
  by_cases hi : pl.inode = i
  · right
    by_cases h6 : pl.state = TCP_TIME_WAIT
    · exact Or.inl h6
    · by_cases h10 : pl.state = TCP_LISTEN
      · exact Or.inr h10
      · exfalso
        simp [hi, h6, h10] at h
  · exact Or.inl hi

theorem lineTouches_true_elim {l : List Char} {i : Nat} {pl : ParsedLine}
    (hp : parse_line l = some pl) (h : lineTouches l i = true) :
    pl.inode = i ∧ ¬(pl.state = TCP_TIME_WAIT ∨ pl.state = TCP_LISTEN) := by
  unfold lineTouches at h
  rw [hp] at h
  simp at h
  exact ⟨h.1, by simp [h.2.1, h.2.2]⟩

theorem conn_lines_untouched {proto : Nat} :
    ∀ (lines : List (List Char)) (s : CState) (ok : Bool) (s' : CState)
    (id : ConnId) (c : Connection), Inv s →
    conn_lines proto s lines = (ok, s') →
    heapGet s.heap id = some c →
    (∀ l ∈ lines, lineTouches l c.inode = false) →
    heapGet s'.heap id = some c := by
  intro lines
  induction lines with
  | nil =>
    intro s ok s' id c _ hrun hc _
    cases hrun
    exact hc
  | cons l t ih =>
    intro s ok s' id c hInv hrun hc hall
    cases hp : parse_line l with
    | none =>
      rw [conn_lines_parse_fail hp] at hrun
      cases hrun
      exact hc
    | some pl =>
      cases hstep : conn_line_step proto s pl with
      | none =>
        rw [conn_lines_step_fail hp hstep] at hrun
        cases hrun
        exact hc
      | some s1 =>
        rw [conn_lines_step hp hstep] at hrun
        have hun := lineTouches_false_elim hp
          (hall l (List.mem_cons_self _ _))
        rcases conn_line_step_untouched hInv hstep hc hun with ⟨hc1, _, _⟩
        exact ih s1 ok s' id c (inv_conn_line_step hInv hstep) hrun hc1
          (fun l2 hl2 => hall l2 (List.mem_cons_of_mem _ hl2))

theorem conn_lines_dead {proto : Nat} :
    ∀ (lines : List (List Char)) (s : CState) (ok : Bool) (s' : CState)
    (id : ConnId) (i : Nat),
    conn_lines proto s lines = (ok, s') →
    heapGet s.heap id = none → id < s.nextId →
    countInode s.table i = 0 →
    (∀ l ∈ lines, lineTouches l i = false) →
    heapGet s'.heap id = none ∧ id < s'.nextId ∧
      countInode s'.table i = 0 := by
  intro lines
  induction lines with
  | nil =>
    intro s ok s' id i hrun h1 h2 h3 _
    cases hrun
    exact ⟨h1, h2, h3⟩
  | cons l t ih =>
    intro s ok s' id i hrun h1 h2 h3 hall
    cases hp : parse_line l with
    | none =>
      rw [conn_lines_parse_fail hp] at hrun
      cases hrun
      exact ⟨h1, h2, h3⟩
    | some pl =>
      cases hstep : conn_line_step proto s pl with
      | none =>
        rw [conn_lines_step_fail hp hstep] at hrun
        cases hrun
        exact ⟨h1, h2, h3⟩
      | some s1 =>
        rw [conn_lines_step hp hstep] at hrun
        have hun := lineTouches_false_elim hp
          (hall l (List.mem_cons_self _ _))
        rcases conn_line_step_dead hstep h1 h2 h3 hun with ⟨h1', h2', h3'⟩
        exact ih s1 ok s' id i hrun h1' h2' h3'
          (fun l2 hl2 => hall l2 (List.mem_cons_of_mem _ hl2))

theorem conn_lines_keep_active {proto : Nat} :
    ∀ (lines : List (List Char)) (s : CState) (ok : Bool) (s' : CState)
    (id : ConnId) (c : Connection), Inv s →
    conn_lines proto s lines = (ok, s') →
    heapGet s.heap id = some c → c.active = true →
    heapGet s'.heap id = some c := by
  intro lines
  induction lines with
  | nil =>
    intro s ok s' id c _ hrun hc _
    cases hrun
    exact hc
  | cons l t ih =>
    intro s ok s' id c hInv hrun hc ha
    cases hp : parse_line l with
    | none =>
      rw [conn_lines_parse_fail hp] at hrun
      cases hrun
      exact hc
    | some pl =>
      cases hstep : conn_line_step proto s pl with
      | none =>
        rw [conn_lines_step_fail hp hstep] at hrun
        cases hrun
        exact hc
      | some s1 =>
        rw [conn_lines_step hp hstep] at hrun
        have hc1 := conn_line_step_keep_active hInv hstep hc ha
        exact ih s1 ok s' id c (inv_conn_line_step hInv hstep) hrun hc1 ha

theorem conn_lines_present {proto : Nat} :
    ∀ (lines : List (List Char)) (s : CState) (s' : CState) (i : Nat),
    Inv s → conn_lines proto s lines = (true, s') →
    (∃ l ∈ lines, lineTouches l i = true) →
    ∃ id c, heapGet s'.heap id = some c ∧ c.inode = i ∧
      c.active = true := by
  intro lines
  induction lines with
  | nil =>
    intro s s' i _ _ hex
    rcases hex with ⟨l, hl, _⟩
    cases hl
  | cons l0 t ih =>
    intro s s' i hInv hrun hex
    cases hp : parse_line l0 with
    | none =>
      rw [conn_lines_parse_fail hp] at hrun
      cases hrun
    | some pl =>
      cases hstep : conn_line_step proto s pl with
      | none =>
        rw [conn_lines_step_fail hp hstep] at hrun
        cases hrun
      | some s1 =>
        rw [conn_lines_step hp hstep] at hrun
        have hInv1 := inv_conn_line_step hInv hstep
        rcases hex with ⟨l, hl, htouch⟩
        rcases List.mem_cons.mp hl with hl0 | hlt
        · subst hl0
          rcases lineTouches_true_elim hp htouch with ⟨hi, hns⟩
          rcases conn_line_step_touch hInv hstep hns with
            ⟨id, c, hc1, hci, hca⟩
          refine ⟨id, c, ?_, by rw [hci, hi], hca⟩
          exact conn_lines_keep_active t s1 true s' id c hInv1 hrun hc1 hca
        · exact ih s1 s' i hInv1 hrun ⟨l, hlt, htouch⟩

/-! ## File-level effects (connection_update_) -/

theorem connection_update__untouched {p : Nat} {file : List (List Char)}
    {s : CState} {ok : Bool} {s' : CState} {id : ConnId} {c : Connection}
    (hInv : Inv s) (hrun : connection_update_ p s file = (ok, s'))
    (hc : heapGet s.heap id = some c)
    (hall : ∀ l ∈ file.drop 1, lineTouches l c.inode = false) :
    heapGet s'.heap id = some c := by
  cases file with
  | nil => cases hrun; exact hc
  | cons hd t => exact conn_lines_untouched t s ok s' id c hInv hrun hc hall

theorem connection_update__dead {p : Nat} {file : List (List Char)}
    {s : CState} {ok : Bool} {s' : CState} {id : ConnId} {i : Nat}
    (hrun : connection_update_ p s file = (ok, s'))
    (h1 : heapGet s.heap id = none) (h2 : id < s.nextId)
    (h3 : countInode s.table i = 0)
    (hall : ∀ l ∈ file.drop 1, lineTouches l i = false) :
    heapGet s'.heap id = none ∧ id < s'.nextId ∧
      countInode s'.table i = 0 := by
  cases file with
  | nil => cases hrun; exact ⟨h1, h2, h3⟩
  | cons hd t => exact conn_lines_dead t s ok s' id i hrun h1 h2 h3 hall

theorem connection_update__keep_active {p : Nat}
    {file : List (List Char)} {s : CState} {ok : Bool} {s' : CState}
    {id : ConnId} {c : Connection}
    (hInv : Inv s) (hrun : connection_update_ p s file = (ok, s'))
    (hc : heapGet s.heap id = some c) (ha : c.active = true) :
    heapGet s'.heap id = some c := by
  cases file with
  | nil => cases hrun; exact hc
  | cons hd t =>
    exact conn_lines_keep_active t s ok s' id c hInv hrun hc ha

theorem connection_update__present {p : Nat} {file : List (List Char)}
    {s : CState} {s' : CState} {i : Nat}
    (hInv : Inv s) (hrun : connection_update_ p s file = (true, s'))
    (hex : ∃ l ∈ file.drop 1, lineTouches l i = true) :
    ∃ id c, heapGet s'.heap id = some c ∧ c.inode = i ∧
      c.active = true := by
  cases file with
  | nil =>
    rcases hex with ⟨l, hl, _⟩
    cases hl
  | cons hd t => exact conn_lines_present t s s' i hInv hrun hex

/-! ## Whole-update decomposition for successful updates -/

theorem update_success_parts {proto : Nat} {tcp udp : List (List Char)}
    {s s' : CState} (hInv : Inv s)
    (hup : connection_update proto tcp udp s = (true, s')) :
    ∃ sMid, Inv sMid ∧ s' = aging sMid ∧
      (∀ id c, heapGet s.heap id = some c →
        filesObserve proto tcp udp c.inode = false →
        heapGet sMid.heap id = some c) ∧
      (∀ id i, heapGet s.heap id = none → id < s.nextId →
        countInode s.table i = 0 → filesObserve proto tcp udp i = false →
        heapGet sMid.heap id = none ∧ id < sMid.nextId ∧
          countInode sMid.table i = 0) ∧
      (∀ i, filesObserve proto tcp udp i = true →
        ∃ id c, heapGet sMid.heap id = some c ∧ c.inode = i ∧
          c.active = true) := by
  rw [connection_update_eq] at hup
  rcases h1 : (if proto &&& TCPflag ≠ 0
      then connection_update_ IPPROTO_TCP s tcp else (true, s))
    with ⟨ok1, s1⟩
  rw [h1] at hup
  cases ok1 with
  | false => simp at hup
  | true =>
    dsimp only at hup
    rcases h2 : (if proto &&& UDPflag ≠ 0
        then connection_update_ IPPROTO_UDP s1 udp else (true, s1))
      with ⟨ok2, s2⟩
    rw [h2] at hup
    cases ok2 with
    | false => simp at hup
    | true =>
      simp only [Prod.mk.injEq, true_and] at hup
      have hInv1 : Inv s1 := by
        by_cases hf : proto &&& TCPflag ≠ 0
        · rw [if_pos hf] at h1
          have h3 := @inv_connection_update_ IPPROTO_TCP tcp _ hInv
          rw [h1] at h3
          exact h3
        · rw [if_neg hf] at h1
          cases h1
          exact hInv
      have hInv2 : Inv s2 := by
        by_cases hf : proto &&& UDPflag ≠ 0
        · rw [if_pos hf] at h2
          have h3 := @inv_connection_update_ IPPROTO_UDP udp _ hInv1
          rw [h2] at h3
          exact h3
        · rw [if_neg hf] at h2
          cases h2
          exact hInv1
      have hobsF : ∀ i, filesObserve proto tcp udp i = false →
          (∀ l ∈ (if proto &&& TCPflag ≠ 0 then tcp.drop 1 else []),
            lineTouches l i = false) ∧
          (∀ l ∈ (if proto &&& UDPflag ≠ 0 then udp.drop 1 else []),
            lineTouches l i = false) := by
        intro i hobs
        unfold filesObserve at hobs
        rw [List.any_eq_false] at hobs
        constructor
        · intro l hl
          exact Bool.eq_false_iff.mpr (hobs l (List.mem_append.mpr (Or.inl hl)))
        · intro l hl
          exact Bool.eq_false_iff.mpr (hobs l (List.mem_append.mpr (Or.inr hl)))
      refine ⟨s2, hInv2, hup.symm, ?_, ?_, ?_⟩
      · intro id c hc hobs
        rcases hobsF c.inode hobs with ⟨hT, hU⟩
        have hc1 : heapGet s1.heap id = some c := by
          by_cases hf : proto &&& TCPflag ≠ 0
          · rw [if_pos hf] at h1
            rw [if_pos hf] at hT
            exact connection_update__untouched hInv h1 hc hT
          · rw [if_neg hf] at h1
            cases h1
            exact hc
        by_cases hf : proto &&& UDPflag ≠ 0
        · rw [if_pos hf] at h2
          rw [if_pos hf] at hU
          exact connection_update__untouched hInv1 h2 hc1 hU
        · rw [if_neg hf] at h2
          cases h2
          exact hc1
      · intro id i hd hb hcnt hobs
        rcases hobsF i hobs with ⟨hT, hU⟩
        have hstage1 : heapGet s1.heap id = none ∧ id < s1.nextId ∧
            countInode s1.table i = 0 := by
          by_cases hf : proto &&& TCPflag ≠ 0
          · rw [if_pos hf] at h1
            rw [if_pos hf] at hT
            exact connection_update__dead h1 hd hb hcnt hT
          · rw [if_neg hf] at h1
            cases h1
            exact ⟨hd, hb, hcnt⟩
        rcases hstage1 with ⟨hd1, hb1, hcnt1⟩
        by_cases hf : proto &&& UDPflag ≠ 0
        · rw [if_pos hf] at h2
          rw [if_pos hf] at hU
          exact connection_update__dead h2 hd1 hb1 hcnt1 hU
        · rw [if_neg hf] at h2
          cases h2
          exact ⟨hd1, hb1, hcnt1⟩
      · intro i hobs
        unfold filesObserve at hobs
        rw [List.any_eq_true] at hobs
        rcases hobs with ⟨l, hl, htouch⟩
        rcases List.mem_append.mp hl with hlT | hlU
        · have hfT : proto &&& TCPflag ≠ 0 := by
            by_contra hf
            rw [if_neg (fun hcc : proto &&& TCPflag ≠ 0 => hcc hf)] at hlT
            cases hlT
          rw [if_pos hfT] at hlT h1
          rcases connection_update__present hInv h1 ⟨l, hlT, htouch⟩
            with ⟨id, c, hc1, hci, hca⟩
          refine ⟨id, c, ?_, hci, hca⟩
          by_cases hf : proto &&& UDPflag ≠ 0
          · rw [if_pos hf] at h2
            exact connection_update__keep_active hInv1 h2 hc1 hca
          · rw [if_neg hf] at h2
            cases h2
            exact hc1
        · have hfU : proto &&& UDPflag ≠ 0 := by
            by_contra hf
            rw [if_neg (fun hcc : proto &&& UDPflag ≠ 0 => hcc hf)] at hlU
            cases hlU
          rw [if_pos hfU] at hlU h2
          exact connection_update__present hInv1 h2 ⟨l, hlU, htouch⟩

theorem aging_eq (s : CState) :
    aging s = (foreachIds s.table).foldl remove_dead_conn s := rfl

theorem allInactive_update {proto : Nat} {tcp udp : List (List Char)}
    {s s' : CState} (hInv : Inv s)
    (hup : connection_update proto tcp udp s = (true, s')) :
    AllInactive s' := by
  rcases update_success_parts hInv hup with ⟨sMid, hInvM, hEq, _, _, _⟩
  rw [hEq]
  exact allInactive_aging hInvM

/-- C4 (amended): across two consecutive successful connection_update
calls starting from a state the previous successful update (or init)
left behind, a connection whose inode is observed by neither update is
gone after the second one — its record is freed and the inode lookup
returns null — and an inode observed by the second update has a live
record in the table after the second update.  (The original claim's
"present in at least one of the two snapshots" fails: a record that
already missed one earlier scan carries refcount 1, and one further
missed scan evicts it even though it was just re-observed; and tuple
lookups can be shadowed when records share a tuple, so the guarantee
is stated on the inode index.) -/
theorem aging_two_snapshots_amended
    {proto1 proto2 : Nat} {tcp1 udp1 tcp2 udp2 : List (List Char)}
    {s0 s1 s2 : CState}
    (hInv : Inv s0) (hquiet : AllInactive s0)
    (h1 : connection_update proto1 tcp1 udp1 s0 = (true, s1))
    (h2 : connection_update proto2 tcp2 udp2 s1 = (true, s2)) :
    (∀ id c, heapGet s0.heap id = some c →
      filesObserve proto1 tcp1 udp1 c.inode = false →
      filesObserve proto2 tcp2 udp2 c.inode = false →
      heapGet s2.heap id = none ∧
        (connection_get_by_inode s2 c.inode).2 = none) ∧
    (∀ i, filesObserve proto2 tcp2 udp2 i = true →
      ∃ id c, (connection_get_by_inode s2 i).2 = some id ∧
        heapGet s2.heap id = some c ∧ c.inode = i) := by
  rcases update_success_parts hInv h1 with
    ⟨m1, hInvM1, hEq1, hUnt1, _, _⟩
  have hInvS1 : Inv s1 := by rw [hEq1]; exact inv_aging hInvM1
  rcases update_success_parts hInvS1 h2 with
    ⟨m2, hInvM2, hEq2, hUnt2, hDead2, hPres2⟩
  have hInvS2 : Inv s2 := by rw [hEq2]; exact inv_aging hInvM2
  constructor
  · intro id c hc hobs1 hobs2
    have hc1 : heapGet m1.heap id = some c := hUnt1 id c hc hobs1
    have hact : c.active = false := hquiet id c hc
    have hmem1 : id ∈ foreachIds m1.table :=
      mem_foreachIds.mpr ⟨_, hInvM1.liveIndexed _ _ hc1⟩
    have hbound1 : id < m1.nextId :=
      hInvM1.idBound _ (hInvM1.liveIndexed _ _ hc1)
    have hage1 := aging_fold_inactive (foreachIds m1.table) m1 id c
      hInvM1 (foreachIds_nodup _) hc1 hact hmem1
    have hsnid : s1.nextId = m1.nextId := by
      rw [hEq1]
      exact aging_nextId m1
    have hfinal : heapGet s2.heap id = none ∧
        countInode s2.table c.inode = 0 := by
      rcases hInvM1.liveUse _ _ hc1 with huse | huse
      · -- already on its last reference: evicted by the first update
        rcases hage1.1 huse with ⟨hdead1, hcnt1⟩
        rw [← aging_eq, ← hEq1] at hdead1 hcnt1
        rcases hDead2 id c.inode hdead1 (by rw [hsnid]; exact hbound1)
          hcnt1 hobs2 with ⟨hdead2, hbound2, hcnt2⟩
        rw [hEq2, aging_eq]
        exact fold_preserves_dead _ m2 id hdead2 hcnt2
      · -- still doubly referenced: one decrement per missed update
        have hc1' := hage1.2 huse
        rw [← aging_eq, ← hEq1] at hc1'
        have hc2' : heapGet m2.heap id = some { c with use := 1 } := by
          refine hUnt2 id { c with use := 1 } hc1' ?_
          show filesObserve proto2 tcp2 udp2 c.inode = false
          exact hobs2
        have hmem2 : id ∈ foreachIds m2.table :=
          mem_foreachIds.mpr ⟨_, hInvM2.liveIndexed _ _ hc2'⟩
        have hage2 := aging_fold_inactive (foreachIds m2.table) m2 id
          { c with use := 1 } hInvM2 (foreachIds_nodup _) hc2'
          (show ({ c with use := 1 } : Connection).active = false from hact)
          hmem2
        rcases hage2.1 rfl with ⟨hdead2, hcnt2⟩
        rw [← aging_eq, ← hEq2] at hdead2 hcnt2
        exact ⟨hdead2, hcnt2⟩
    refine ⟨hfinal.1, ?_⟩
    rw [get_by_inode_eq]
    exact htGetGo_inode_none.mpr hfinal.2
  · intro i hobs
    rcases hPres2 i hobs with ⟨id, c, hcm2, hci, hca⟩
    have hmem2 : id ∈ foreachIds m2.table :=
      mem_foreachIds.mpr ⟨_, hInvM2.liveIndexed _ _ hcm2⟩
    have hfin : heapGet s2.heap id = some { c with active := false } := by
      rw [hEq2, aging_eq]
      exact aging_fold_active (foreachIds m2.table) m2 id c hInvM2
        (foreachIds_nodup _) hcm2 hca hmem2
    refine ⟨id, { c with active := false }, ?_, hfin, hci⟩
    rw [get_by_inode_eq]
    have hmem : (HKey.inode i, id) ∈ s2.table := by
      have h5 := hInvS2.liveIndexed _ _ hfin
      rw [show ({ c with active := false } : Connection).inode = c.inode
        from rfl, hci] at h5
      exact h5
    exact htGetGo_inode_of_mem (hInvS2.inodeUnique i) hmem

/-! ## Facts feeding the state-filter and parser claims -/

theorem hex_not_ws {c : Char} (h : isHexChar c = true) :
    isWS c = false := by
  have h2 : (48 ≤ c.toNat ∧ c.toNat ≤ 57) ∨ (65 ≤ c.toNat ∧ c.toNat ≤ 70) ∨
      (97 ≤ c.toNat ∧ c.toNat ≤ 102) := by
    unfold isHexChar hexVal? at h
    split at h
    · next hh => exact Or.inl hh
    · split at h
      · next hh => exact Or.inr (Or.inl hh)
      · split at h
        · next hh => exact Or.inr (Or.inr hh)
        · cases h
  unfold isWS
  rcases h2 with hh | hh | hh <;> simp <;> omega

theorem scanSetHex9_spec {cs a r : List Char}
    (h : scanSetHex9 cs = some (a, r)) :
    a ≠ [] ∧ ∀ c ∈ a, isHexChar c = true := by
  unfold scanSetHex9 at h
  by_cases hp : (cs.takeWhile isHexChar).take 9 = []
  · rw [if_pos hp] at h
    cases h
  · rw [if_neg hp] at h
    cases h
    refine ⟨hp, ?_⟩
    intro c hc
    exact List.mem_takeWhile_imp (List.mem_of_mem_take hc)

theorem scanAddrPort_spec {cs : List Char} {a : List Char} {p : Nat}
    {r : List Char} (h : scanAddrPort cs = some (a, p, r)) :
    a ≠ [] ∧ ∀ c ∈ a, isHexChar c = true := by
  unfold scanAddrPort at h
  cases h1 : scanSetHex9 cs with
  | none =>
    simp only [h1] at h
    exact Option.noConfusion h
  | some ar =>
    rcases ar with ⟨a1, r1⟩
    simp only [h1] at h
    cases h2 : litChar ':' r1 with
    | none =>
      simp only [h2] at h
      exact Option.noConfusion h
    | some r2 =>
      simp only [h2] at h
      cases h3 : scanNat hexVal? 16 r2 with
      | none =>
        simp only [h3] at h
        exact Option.noConfusion h
      | some pr =>
        simp only [h3, Option.some.injEq, Prod.mk.injEq] at h
        rcases h with ⟨ha, _, _⟩
        rw [ha] at h1
        exact scanSetHex9_spec h1

theorem parse_line_addrs {l : List Char} {pl : ParsedLine}
    (hp : parse_line l = some pl) :
    (pl.local_addr ≠ [] ∧ ∀ c ∈ pl.local_addr, isHexChar c = true) ∧
    (pl.rem_addr ≠ [] ∧ ∀ c ∈ pl.rem_addr, isHexChar c = true) := by
  unfold parse_line at hp
  cases h1 : scanNat decVal? 10 l with
  | none =>
    simp only [h1] at hp
    exact Option.noConfusion hp
  | some v1 =>
    rcases v1 with ⟨n1, r1⟩
    simp only [h1] at hp
    cases h2 : litChar ':' r1 with
    | none =>
      simp only [h2] at hp
      exact Option.noConfusion hp
    | some r2 =>
      simp only [h2] at hp
      cases h3 : scanAddrPort (r2.dropWhile isWS) with
      | none =>
      simp only [h3] at hp
      exact Option.noConfusion hp
      | some v3 =>
        rcases v3 with ⟨la, lp, r3⟩
        simp only [h3] at hp
        cases h4 : scanAddrPort (r3.dropWhile isWS) with
        | none =>
      simp only [h4] at hp
      exact Option.noConfusion hp
        | some v4 =>
          rcases v4 with ⟨ra, rp, r4⟩
          simp only [h4] at hp
          cases h5 : scanNat hexVal? 16 r4 with
          | none =>
      simp only [h5] at hp
      exact Option.noConfusion hp
          | some v5 =>
            rcases v5 with ⟨st, r5⟩
            simp only [h5] at hp
            cases h6 : scanInodeTail r5 with
            | none =>
      simp only [h6] at hp
      exact Option.noConfusion hp
            | some ino =>
              simp only [h6] at hp
              cases hp
              exact ⟨scanAddrPort_spec h3, scanAddrPort_spec h4⟩

theorem sscanf_hex_of_hex {a : List Char} (hne : a ≠ [])
    (hhex : ∀ c ∈ a, isHexChar c = true) :
    ∃ v, sscanf_hex a = some v := by
  unfold sscanf_hex scanNat
  cases a with
  | nil => exact absurd rfl hne
  | cons c rest =>
    have hc := hhex c (List.mem_cons_self _ _)
    have hws : isWS c = false := hex_not_ws hc
    rw [List.dropWhile_cons, hws]
    simp only [Bool.false_eq_true, if_false]
    cases hv : hexVal? c with
    | none =>
      unfold isHexChar at hc
      rw [hv] at hc
      cases hc
    | some d => exact ⟨_, rfl⟩

theorem create_of_parse {l : List Char} {pl : ParsedLine} (proto : Nat)
    (hp : parse_line l = some pl) :
    ∃ c, create_new_conn pl.inode pl.local_addr pl.rem_addr
      pl.local_port pl.rem_port pl.state proto = some c := by
  rcases parse_line_addrs hp with ⟨⟨hne1, hhex1⟩, ⟨hne2, hhex2⟩⟩
  rcases sscanf_hex_of_hex hne1 hhex1 with ⟨v1, hv1⟩
  rcases sscanf_hex_of_hex hne2 hhex2 with ⟨v2, hv2⟩
  unfold create_new_conn
  rw [hv1, hv2]
  exact ⟨_, rfl⟩

/-! ## Claim theorems: C1, C3, C5, C7, C8 -/

/-- C1 (amended): after any sequence of connection_init and
connection_update operations, every connection record in the table is
returned by connection_get_by_inode at its inode — the inode index and
the record heap agree.  (The tuple half of the original claim fails once
two records share a tuple; see the counterexample.) -/
theorem dual_index_inode_amended {s : CState} (h : Reachable s) :
    ∀ id c, heapGet s.heap id = some c →
      (connection_get_by_inode s c.inode).2 = some id := by
  have hInv := inv_reachable h
  intro id c hc
  rw [get_by_inode_eq]
  exact htGetGo_inode_of_mem (hInv.inodeUnique _) (hInv.liveIndexed _ _ hc)

/-- C1 witness: in the concrete two-update run, record 0 (inode 100) is
still returned by the inode lookup. -/
theorem dual_index_inode_amended_witness :
    (connection_get_by_inode aliasState2 100).2 = some 0 :=
  dual_index_inode_amended
    (Reachable.update 1 [hdrLine, aliasLine2] []
      (Reachable.update 1 [hdrLine, aliasLine1] [] Reachable.init))
    0 { tuple := tupleAB, inode := 100, state := 1, active := false,
        use := 1 }
    (by decide)

/-- C1 counterexample: after scanning inode 100 with tuple tupleAB and
then inode 200 with the same tuple, record 0 is live with tuple tupleAB
yet connection_get_by_tuple tupleAB returns record 1: the two indexes
disagree on a live record, refuting get_by_tuple(c.tuple) = c. -/
theorem dual_index_counterexample :
    (heapGet aliasState2.heap 0).map Connection.tuple = some tupleAB ∧
    (connection_get_by_tuple aliasState2 tupleAB).2 = some 1 ∧
    (1 : ConnId) ≠ 0 := by
  refine ⟨by decide, by decide, by decide⟩

/-- C3 (amended): on every reachable state, each record in the table
carries a reference count of exactly 1 or 2 (it never underflows and
reaches 0 only at the moment the record is removed and freed), and the
inode index never references a freed record.  (The tuple index can:
see the counterexample.) -/
theorem refcount_inode_amended {s : CState} (h : Reachable s) :
    (∀ id c, heapGet s.heap id = some c → c.use = 1 ∨ c.use = 2) ∧
    (∀ i id, (HKey.inode i, id) ∈ s.table →
      ∃ c, heapGet s.heap id = some c) := by
  have hInv := inv_reachable h
  exact ⟨hInv.liveUse,
    fun i id hm => ⟨(hInv.inodeLive i id hm).choose,
      (hInv.inodeLive i id hm).choose_spec.1⟩⟩

/-- C3 witness: in the three-update run, the surviving record 1 has
refcount 1. -/
theorem refcount_inode_amended_witness :
    ({ tuple := tupleAB, inode := 200, state := 1, active := false,
       use := 1 } : Connection).use = 1 ∨
    ({ tuple := tupleAB, inode := 200, state := 1, active := false,
       use := 1 } : Connection).use = 2 :=
  (refcount_inode_amended
    (Reachable.update 1 [hdrLine] []
      (Reachable.update 1 [hdrLine, aliasLine2] []
        (Reachable.update 1 [hdrLine, aliasLine1] []
          Reachable.init)))).1
    1 _ (by decide)

/-- C3 counterexample: after record 0 (inode 100, tuple tupleAB) is
evicted, connection_remove removed the newest tuple entry for tupleAB —
record 1's — so record 0's tuple entry survives while record 0 itself
has been freed: the tuple index retains a reference to a freed record,
refuting "no index retains a reference to a freed record". -/
theorem refcount_counterexample :
    (HKey.tuple tupleAB, 0) ∈ aliasState3.table ∧
    heapGet aliasState3.heap 0 = none := by
  refine ⟨by decide, by decide⟩

/-- C5: a line of a kernel connection file that fails to parse makes
the whole connection_update return err; the state keeps exactly the
records inserted while scanning the preceding lines of that file, and
the aging pass is not run during that update (the returned state is the
fold over the good prefix only, untouched by remove_dead_conn).  The
first conjunct places the malformed line in the TCP file, the second in
the UDP file. -/
theorem malformed_line_aborts :
    (∀ (proto : Nat) (s sG : CState) (header bad : List Char)
       (good rest : List (List Char)) (udp : List (List Char)),
      proto &&& TCPflag ≠ 0 →
      conn_lines IPPROTO_TCP s good = (true, sG) →
      parse_line bad = none →
      connection_update proto (header :: (good ++ bad :: rest)) udp s =
        (false, sG)) ∧
    (∀ (proto : Nat) (s s1 sG : CState) (header bad : List Char)
       (good rest : List (List Char)) (tcp : List (List Char)),
      proto &&& UDPflag ≠ 0 →
      (if proto &&& TCPflag ≠ 0
       then connection_update_ IPPROTO_TCP s tcp else (true, s)) =
        (true, s1) →
      conn_lines IPPROTO_UDP s1 good = (true, sG) →
      parse_line bad = none →
      connection_update proto tcp (header :: (good ++ bad :: rest)) s =
        (false, sG)) := by
  have key : ∀ (p : Nat) (s sG : CState) (bad : List Char)
      (good rest : List (List Char)),
      conn_lines p s good = (true, sG) → parse_line bad = none →
      conn_lines p s (good ++ bad :: rest) = (false, sG) := by
    intro p s sG bad good
    induction good generalizing s with
    | nil =>
      intro rest hrun hbad
      cases hrun
      rw [List.nil_append]
      exact conn_lines_parse_fail hbad
    | cons l t ih =>
      intro rest hrun hbad
      cases hp : parse_line l with
      | none =>
        rw [conn_lines_parse_fail hp] at hrun
        cases hrun
      | some pl =>
        cases hstep : conn_line_step p s pl with
        | none =>
          rw [conn_lines_step_fail hp hstep] at hrun
          cases hrun
        | some sNext =>
          rw [conn_lines_step hp hstep] at hrun
          rw [List.cons_append, conn_lines_step hp hstep]
          exact ih sNext rest hrun hbad
  constructor
  · intro proto s sG header bad good rest udp hflag hrun hbad
    rw [connection_update_eq, if_pos hflag]
    have h1 : connection_update_ IPPROTO_TCP s
        (header :: (good ++ bad :: rest)) = (false, sG) :=
      key IPPROTO_TCP s sG bad good rest hrun hbad
    rw [h1]
  · intro proto s s1 sG header bad good rest tcp hflag hstage1 hrun hbad
    rw [connection_update_eq, hstage1]
    dsimp only
    rw [if_pos hflag]
    have h1 : connection_update_ IPPROTO_UDP s1
        (header :: (good ++ bad :: rest)) = (false, sG) :=
      key IPPROTO_UDP s1 sG bad good rest hrun hbad
    rw [h1]

/-- C5 witness: the one-line file whose only data line is "x" makes
connection_update fail and leave the fresh state untouched. -/
theorem malformed_line_aborts_witness :
    connection_update 1 (hdrLine :: ([] ++ ['x'] :: [])) [] initState =
      (false, initState) :=
  malformed_line_aborts.1 1 initState initState hdrLine ['x'] [] [] []
    (by decide) rfl (by decide)

/-- C7 (amended): the raw hash-table operations read the process-wide
key_type variable, so their result depends on which key-kind write
preceded them (see the counterexample); but every public
connection-table operation writes the discriminator immediately before
its hash-table call, making the result of connection_get_by_inode and
connection_get_by_tuple depend only on the explicit argument and the
table contents. -/
theorem key_kind_call_site_amended :
    ∀ (s t : CState) (i : Nat) (tp : Tuple), s.table = t.table →
      (connection_get_by_inode s i).2 = (connection_get_by_inode t i).2 ∧
      (connection_get_by_tuple s tp).2 =
        (connection_get_by_tuple t tp).2 := by
  intro s t i tp h
  rw [get_by_inode_eq, get_by_inode_eq, get_by_tuple_eq, get_by_tuple_eq,
    h]
  exact ⟨rfl, rfl⟩

/-- C7 witness: two states agreeing on the table but holding different
key_type values give the same answers through the public getters. -/
theorem key_kind_call_site_amended_witness :
    (connection_get_by_inode
      { table := [(HKey.inode 5, 0)], heap := [], nextId := 1,
        key_type := KEY_INODE } 5).2 =
    (connection_get_by_inode
      { table := [(HKey.inode 5, 0)], heap := [], nextId := 1,
        key_type := KEY_TUPLE } 5).2 ∧
    (connection_get_by_tuple
      { table := [(HKey.inode 5, 0)], heap := [], nextId := 1,
        key_type := KEY_INODE } tupleAB).2 =
    (connection_get_by_tuple
      { table := [(HKey.inode 5, 0)], heap := [], nextId := 1,
        key_type := KEY_TUPLE } tupleAB).2 :=
  key_kind_call_site_amended _ _ 5 tupleAB rfl

/-- C7 counterexample: the same hashtable_get call — same probe key and
same table contents — returns the stored value when the process-wide
key_type holds KEY_INODE and nothing when it holds KEY_TUPLE: the
result depends on the ambient key-kind variable written before the
call, refuting the claimed independence. -/
theorem key_kind_ambient_counterexample :
    ({ table := [(HKey.inode 5, 0)], heap := [], nextId := 1,
       key_type := KEY_INODE } : CState).table =
    ({ table := [(HKey.inode 5, 0)], heap := [], nextId := 1,
       key_type := KEY_TUPLE } : CState).table ∧
    hashtable_get
      { table := [(HKey.inode 5, 0)], heap := [], nextId := 1,
        key_type := KEY_INODE } (HKey.inode 5) ≠
    hashtable_get
      { table := [(HKey.inode 5, 0)], heap := [], nextId := 1,
        key_type := KEY_TUPLE } (HKey.inode 5) := by
  refine ⟨rfl, by decide⟩

/-- C8: for every successfully parsed kernel-file line, the update loop
skips it exactly when its state is TCP_TIME_WAIT or TCP_LISTEN — the
state is returned unchanged, no record created or marked active — and
for every other state it refreshes or inserts a record: afterwards the
inode lookup returns a live record with that inode marked active. -/
theorem state_filter_skip_or_refresh {proto : Nat} {s : CState}
    {l : List Char} {pl : ParsedLine} (hInv : Inv s)
    (hp : parse_line l = some pl) :
    ((pl.state = TCP_TIME_WAIT ∨ pl.state = TCP_LISTEN) →
      conn_line_step proto s pl = some s) ∧
    (¬(pl.state = TCP_TIME_WAIT ∨ pl.state = TCP_LISTEN) →
      ∃ s', conn_line_step proto s pl = some s' ∧
        ∃ id c, (connection_get_by_inode s' pl.inode).2 = some id ∧
          heapGet s'.heap id = some c ∧ c.inode = pl.inode ∧
          c.active = true) := by
  constructor
  · intro hskip
    exact conn_line_step_skip hskip
  · intro hns
    have hstep : ∃ s', conn_line_step proto s pl = some s' := by
      cases hget : htGetGo KEY_INODE s.table (HKey.inode pl.inode) with
      | some id2 =>
        rcases hInv.inodeLive pl.inode id2 (htGetGo_inode_some_mem hget)
          with ⟨c2, hc2, _⟩
        exact ⟨_, conn_line_step_hit hns hget hc2⟩
      | none =>
        rcases create_of_parse proto hp with ⟨c, hcr⟩
        exact ⟨_, conn_line_step_miss hns hget hcr⟩
    rcases hstep with ⟨s', hstep⟩
    have hInv' := inv_conn_line_step hInv hstep
    rcases conn_line_step_touch hInv hstep hns with ⟨id, c, hc, hci, hca⟩
    refine ⟨s', hstep, id, c, ?_, hc, hci, hca⟩
    rw [get_by_inode_eq]
    have hmem : (HKey.inode pl.inode, id) ∈ s'.table := by
      have h5 := hInv'.liveIndexed _ _ hc
      rw [hci] at h5
      exact h5
    exact htGetGo_inode_of_mem (hInv'.inodeUnique _) hmem

/-- C8 witness: a LISTEN line (state 0x0A) is skipped — the step leaves
the fresh state unchanged. -/
theorem state_filter_skip_or_refresh_witness :
    conn_line_step IPPROTO_TCP initState
      { local_addr := ['A', 'B'], local_port := 0x50,
        rem_addr := ['C', 'D'], rem_port := 0x50, state := 10,
        inode := 333 } = some initState :=
  (state_filter_skip_or_refresh inv_init
    (show parse_line listenLine = some _ by decide)).1 (Or.inr rfl)

/-- C4 counterexample: updates 3 and 4 of the run are both successful
and consecutive; inode 777 appears (ESTABLISHED) in the snapshot of
update 3 and was present in the table before update 4, yet after update
4 the record is freed and the lookup returns none — because the record
had already lost one reference in the earlier missed scan and a
re-sighting does not restore it.  This refutes "a connection appearing
in at least one of the two snapshots is still present in the table
after the second update". -/
theorem aging_counterexample :
    connection_update 1 [hdrLine, mLine777] [] mS2 = (true, mS3) ∧
    connection_update 1 [hdrLine] [] mS3 = (true, mS4) ∧
    filesObserve 1 [hdrLine, mLine777] [] 777 = true ∧
    (connection_get_by_inode mS3 777).2 = some 0 ∧
    (connection_get_by_inode mS4 777).2 = none ∧
    heapGet mS4.heap 0 = none := by
  refine ⟨by decide, by decide, by decide, by decide, by decide,
    by decide⟩

/-- C4 witness: in the concrete run, inode 777 (unobserved by either of
the two updates) is fully evicted, while inode 888 (observed by the
second update) is still present. -/
theorem aging_two_snapshots_amended_witness :
    (heapGet wS2.heap 0 = none ∧
      (connection_get_by_inode wS2 777).2 = none) ∧
    (∃ id c, (connection_get_by_inode wS2 888).2 = some id ∧
      heapGet wS2.heap id = some c ∧ c.inode = 888) := by
  have hInv0 : Inv wS0 := inv_connection_update inv_init
  have hquiet : AllInactive wS0 :=
    allInactive_update inv_init
      (show connection_update 1 [hdrLine, wLine777, wLine888] []
        initState = (true, wS0) by decide)
  have H := aging_two_snapshots_amended hInv0 hquiet
    (show connection_update 1 [hdrLine, wLine888] [] wS0 = (true, wS1)
      by decide)
    (show connection_update 1 [hdrLine, wLine888] [] wS1 = (true, wS2)
      by decide)
  exact ⟨H.1 0
    { tuple := tupleAB, inode := 777, state := 1, active := false,
      use := 2 } (by decide) (by decide) (by decide),
    H.2 888 (by decide)⟩

/-- C2: evaluation of the code at the failing input.  Tick 1 scans
inode 50000 with tuple tupleAB; tick 2 scans the same inode with the
different tuple tupleAC.  The update marks the old record active and
allocates nothing (nextId stays 1): the old record with the stale tuple
is retained, get_by_tuple of the new tuple T2 returns none and
get_by_tuple of the old tuple T1 still returns the record — where the
claim (and spec invariant 5 / scenario S5) requires the old record
evicted and a fresh record reachable under T2.  The source marks the
spot with "TODO: need check to tuple here? linux recycling inode?". -/
theorem inode_reuse_keeps_old_record :
    (heapGet c2State2.heap 0).map Connection.tuple = some tupleAB ∧
    (connection_get_by_tuple c2State2 tupleAC).2 = none ∧
    (connection_get_by_tuple c2State2 tupleAB).2 = some 0 ∧
    c2State2.nextId = 1 := by
  refine ⟨by decide, by decide, by decide, by decide⟩

/-- C9: evaluation of the fd-matching loop at the failing input.  When
readlink fails (broken symlink, vanished fd, permission denied) the
code stores the -1 return in len_link and executes
temp_buff[len_link] = 0 — a write one byte before the buffer, recorded
as oob_write — contradicting the claim that such fds are silently
ignored with no out-of-bounds buffer access.  A successful readlink of
a matching socket target produces a match with no out-of-bounds access,
and a non-socket target is silently ignored, as claimed. -/
theorem resolver_readlink_oob :
    check_fd_inode none 20911 = { oob_write := true, matched := false } ∧
    check_fd_inode (some (socketStr 20911)) 20911 =
      { oob_write := false, matched := true } ∧
    check_fd_inode (some ['/', 'd', 'e', 'v', '/', 'n', 'u', 'l', 'l'])
      20911 = { oob_write := false, matched := false } := by
  refine ⟨by decide, by decide, by decide⟩

/-! ## Rendering and rescanning digits (toolkit for the parser claims) -/

theorem hexVal_lt {c : Char} {d : Nat} (h : hexVal? c = some d) :
    d < 16 := by
  unfold hexVal? at h
  split at h
  · next hh => cases h; omega
  · split at h
    · next hh => cases h; omega
    · split at h
      · next hh => cases h; omega
      · cases h

theorem hexDigitChar_val : ∀ d < 16, hexVal? (hexDigitChar d) = some d := by
  decide

theorem hexDigitChar_not_ws : ∀ d < 16, isWS (hexDigitChar d) = false := by
  decide

theorem isHexChar_colon : isHexChar ':' = false := by decide

theorem isHexChar_space : isHexChar ' ' = false := by decide

theorem hexVal_colon : hexVal? ':' = none := by decide

theorem hexVal_space : hexVal? ' ' = none := by decide

theorem decDigitChar_val : ∀ n < 10, decVal? (Char.ofNat (48 + n)) =
    some n := by decide

theorem decDigitChar_not_ws : ∀ n < 10, isWS (Char.ofNat (48 + n)) =
    false := by decide

theorem hex_ne_colon {c : Char} (h : isHexChar c = true) : c ≠ ':' := by
  intro he
  rw [he, isHexChar_colon] at h
  cases h

theorem scanDigits_stop {val? : Char → Option Nat} {base acc : Nat}
    {c : Char} {t : List Char} (h : val? c = none) :
    scanDigits val? base acc (c :: t) = (acc, c :: t) := by
  simp [scanDigits, h]

theorem scanDigits_hexRender (w : Nat) (n : Nat) :
    ∀ (acc : Nat) (rest : List Char),
    scanDigits hexVal? 16 acc (hexRender w n ++ rest) =
      scanDigits hexVal? 16 (acc * 16 ^ w + n % 16 ^ w) rest := by
  induction w with
  | zero =>
    intro acc rest
    simp [hexRender, Nat.mod_one]
  | succ w ih =>
    intro acc rest
    have hd : n / 16 ^ w % 16 < 16 := Nat.mod_lt _ (by omega)
    show scanDigits hexVal? 16 acc
      (hexDigitChar (n / 16 ^ w % 16) :: (hexRender w n ++ rest)) = _
    rw [scanDigits, hexDigitChar_val _ hd]
    show scanDigits hexVal? 16 (acc * 16 + n / 16 ^ w % 16)
      (hexRender w n ++ rest) = _
    rw [ih]
    congr 1
    have hmul : n % (16 ^ w * 16) = n % 16 ^ w + 16 ^ w * (n / 16 ^ w % 16) :=
      Nat.mod_mul
    rw [pow_succ, hmul]
    ring

theorem scanNat_hexRender (w n : Nat) {rest : List Char}
    (hstop : ∀ c t, rest = c :: t → hexVal? c = none) :
    scanNat hexVal? 16 (hexRender (w + 1) n ++ rest) =
      some (n % 16 ^ (w + 1), rest) := by
  have hd : n / 16 ^ w % 16 < 16 := Nat.mod_lt _ (by omega)
  show scanNat hexVal? 16
    (hexDigitChar (n / 16 ^ w % 16) :: (hexRender w n ++ rest)) = _
  rw [scanNat, List.dropWhile_cons, hexDigitChar_not_ws _ hd]
  simp only [Bool.false_eq_true, if_false]
  rw [hexDigitChar_val _ hd]
  show some (scanDigits hexVal? 16 (n / 16 ^ w % 16)
    (hexRender w n ++ rest)) = _
  have h1 := scanDigits_hexRender w n (n / 16 ^ w % 16) rest
  rw [h1]
  have h2 : scanDigits hexVal? 16
      (n / 16 ^ w % 16 * 16 ^ w + n % 16 ^ w) rest =
      (n / 16 ^ w % 16 * 16 ^ w + n % 16 ^ w, rest) := by
    cases hr : rest with
    | nil => rfl
    | cons c t => exact scanDigits_stop (hstop c t hr)
  rw [h2]
  have hmul : n % (16 ^ w * 16) = n % 16 ^ w + 16 ^ w * (n / 16 ^ w % 16) :=
    Nat.mod_mul
  rw [pow_succ, hmul]
  congr 2
  ring

theorem takeWhile_hex_stop {r : List Char}
    (hstop : ∀ c t, r = c :: t → isHexChar c = false) :
    r.takeWhile isHexChar = [] := by
  cases hr : r with
  | nil => rfl
  | cons c t =>
    rw [List.takeWhile_cons, hstop c t hr]
    rfl

theorem scanSetHex9_append {la rest : List Char} (hne : la ≠ [])
    (hhex : ∀ c ∈ la, isHexChar c = true) (hlen : la.length ≤ 9)
    (hstop : ∀ c t, rest = c :: t → isHexChar c = false) :
    scanSetHex9 (la ++ rest) = some (la, rest) := by
  have h1 : (la ++ rest).takeWhile isHexChar = la := by
    rw [List.takeWhile_append_of_pos hhex, takeWhile_hex_stop hstop,
      List.append_nil]
  unfold scanSetHex9
  rw [h1, List.take_of_length_le hlen, if_neg hne, List.drop_left]

theorem scanSetHex9_long {la rest : List Char}
    (hhex : ∀ c ∈ la, isHexChar c = true) (hlen : 10 ≤ la.length) :
    scanSetHex9 (la ++ rest) = some (la.take 9, la.drop 9 ++ rest) := by
  unfold scanSetHex9
  rw [List.takeWhile_append_of_pos hhex, List.take_append_eq_append_take]
  have h0 : 9 - la.length = 0 := by omega
  rw [h0, List.take_zero, List.append_nil]
  have hlen9 : (la.take 9).length = 9 :=
    List.length_take_of_le (by omega)
  have hne : la.take 9 ≠ [] := by
    intro h
    rw [h] at hlen9
    cases hlen9
  rw [if_neg hne, hlen9, List.drop_append_eq_append_drop, h0,
    List.drop_zero]

theorem scanAddrPort_v4 {la : List Char} (hne : la ≠ [])
    (hhex : ∀ c ∈ la, isHexChar c = true) (hlen : la.length ≤ 9)
    (p : Nat) (Y : List Char) :
    scanAddrPort (la ++ ':' :: (hexRender 4 p ++ ' ' :: Y)) =
      some (la, p % 2 ^ 16, ' ' :: Y) := by
  unfold scanAddrPort
  rw [scanSetHex9_append hne hhex hlen
    (by intro c t h; cases h; exact isHexChar_colon)]
  show (match litChar ':' (':' :: (hexRender 4 p ++ ' ' :: Y)) with
    | none => none
    | some r => match scanNat hexVal? 16 r with
      | none => none
      | some (p2, r) => some (la, p2, r)) = _
  rw [show litChar ':' (':' :: (hexRender 4 p ++ ' ' :: Y)) =
    some (hexRender 4 p ++ ' ' :: Y) from rfl]
  show (match scanNat hexVal? 16 (hexRender (3 + 1) p ++ ' ' :: Y) with
    | none => none
    | some (p2, r) => some (la, p2, r)) = _
  rw [scanNat_hexRender 3 p (by intro c t h; cases h; exact hexVal_space)]
  norm_num

theorem scanAddrPort_long {la : List Char}
    (hhex : ∀ c ∈ la, isHexChar c = true) (hlen : 10 ≤ la.length)
    (X : List Char) :
    scanAddrPort (la ++ ':' :: X) = none := by
  unfold scanAddrPort
  rw [scanSetHex9_long hhex hlen]
  cases hd : la.drop 9 with
  | nil =>
    have := congrArg List.length hd
    simp at this
    omega
  | cons c t =>
    have hc : isHexChar c = true := by
      refine hhex c ?_
      have : c ∈ la.drop 9 := by rw [hd]; exact List.mem_cons_self _ _
      exact List.mem_of_mem_drop this
    show (match litChar ':' (c :: (t ++ ':' :: X)) with
      | none => none
      | some r =>
        match scanNat hexVal? 16 r with
        | none => none
        | some (p, r) => some (la.take 9, p, r)) = none
    have hlit : litChar ':' (c :: (t ++ ':' :: X)) = none := by
      show (if c = ':' then some (t ++ ':' :: X) else none) = none
      rw [if_neg (hex_ne_colon hc)]
    rw [hlit]

/-! ## Decimal digits roundtrip -/

theorem natDigitsF_head : ∀ (fuel n : Nat), n < fuel →
    ∃ c t d, natDigitsF fuel n = c :: t ∧ decVal? c = some d ∧
      isWS c = false := by
  intro fuel
  induction fuel with
  | zero => intro n h; omega
  | succ fuel ih =>
    intro n h
    by_cases h10 : n < 10
    · exact ⟨Char.ofNat (48 + n), [], n, by rw [natDigitsF, if_pos h10],
        decDigitChar_val n h10, decDigitChar_not_ws n h10⟩
    · have hrec : n / 10 < fuel := by omega
      rcases ih (n / 10) hrec with ⟨c, t, d, heq, hval, hws⟩
      refine ⟨c, t ++ [Char.ofNat (48 + n % 10)], d, ?_, hval, hws⟩
      rw [natDigitsF, if_neg h10, heq, List.cons_append]

theorem scanDigits_natDigitsF : ∀ (fuel n : Nat), n < fuel →
    ∀ (acc : Nat) (rest : List Char),
    scanDigits decVal? 10 acc (natDigitsF fuel n ++ rest) =
      scanDigits decVal? 10 (acc * 10 ^ (natDigitsF fuel n).length + n)
        rest := by
  intro fuel
  induction fuel with
  | zero => intro n h; omega
  | succ fuel ih =>
    intro n h acc rest
    by_cases h10 : n < 10
    · rw [natDigitsF, if_pos h10]
      show scanDigits decVal? 10 acc
        (Char.ofNat (48 + n) :: rest) = _
      rw [scanDigits, decDigitChar_val n h10]
      norm_num
    · have hrec : n / 10 < fuel := by omega
      rw [natDigitsF, if_neg h10]
      rw [List.append_assoc, ih (n / 10) hrec acc _]
      show scanDigits decVal? 10 _ (Char.ofNat (48 + n % 10) :: rest) = _
      rw [scanDigits, decDigitChar_val (n % 10) (Nat.mod_lt _ (by omega))]
      show scanDigits decVal? 10
        ((acc * 10 ^ (natDigitsF fuel (n / 10)).length + n / 10) * 10 +
          n % 10) rest = _
      rw [List.length_append, List.length_singleton, pow_succ]
      congr 1
      have hdm : n / 10 * 10 + n % 10 = n := by omega
      calc (acc * 10 ^ (natDigitsF fuel (n / 10)).length + n / 10) * 10 +
            n % 10
          = acc * (10 ^ (natDigitsF fuel (n / 10)).length * 10) +
            (n / 10 * 10 + n % 10) := by ring
        _ = _ := by rw [hdm]

theorem scanNat_natDigits (n : Nat) {rest : List Char}
    (hstop : ∀ c t, rest = c :: t → decVal? c = none) :
    scanNat decVal? 10 (natDigits n ++ rest) = some (n, rest) := by
  rcases natDigitsF_head (n + 1) n (by omega) with ⟨c, t, d, heq, hval, hws⟩
  unfold natDigits
  rw [heq, List.cons_append, scanNat, List.dropWhile_cons, hws]
  simp only [Bool.false_eq_true, if_false]
  rw [hval]
  show some (scanDigits decVal? 10 d (t ++ rest)) = _
  have h1 : scanDigits decVal? 10 d (t ++ rest) =
      scanDigits decVal? 10 0 ((c :: t) ++ rest) := by
    rw [List.cons_append, scanDigits, hval]
    norm_num
  rw [h1, ← heq, scanDigits_natDigitsF (n + 1) n (by omega) 0 rest]
  have h2 : scanDigits decVal? 10 n rest = (n, rest) := by
    cases hr : rest with
    | nil => rfl
    | cons c2 t2 => exact scanDigits_stop (hstop c2 t2 hr)
  norm_num
  rw [h2]

/-! ## Scanning a whole hex field (the %x of create_new_conn) -/

theorem scanDigits_all_hex : ∀ (l : List Char),
    (∀ c ∈ l, isHexChar c = true) → ∀ acc : Nat,
    ∃ v, scanDigits hexVal? 16 acc l = (acc * 16 ^ l.length + v, []) ∧
      v < 16 ^ l.length := by
  intro l
  induction l with
  | nil =>
    intro _ acc
    exact ⟨0, by simp [scanDigits], by norm_num⟩
  | cons c t ih =>
    intro hhex acc
    have hc := hhex c (List.mem_cons_self _ _)
    unfold isHexChar at hc
    cases hv : hexVal? c with
    | none => rw [hv] at hc; cases hc
    | some d =>
      have hd : d < 16 := hexVal_lt hv
      rcases ih (fun x hx => hhex x (List.mem_cons_of_mem _ hx))
        (acc * 16 + d) with ⟨v, hval, hbound⟩
      refine ⟨d * 16 ^ t.length + v, ?_, ?_⟩
      · rw [scanDigits, hv]
        show scanDigits hexVal? 16 (acc * 16 + d) t = _
        rw [hval]
        congr 1
        rw [List.length_cons, pow_succ]
        ring
      · rw [List.length_cons, pow_succ]
        have h16 : d * 16 ^ t.length ≤ 15 * 16 ^ t.length :=
          Nat.mul_le_mul_right _ (by omega)
        calc d * 16 ^ t.length + v < d * 16 ^ t.length + 16 ^ t.length :=
              by omega
          _ ≤ 15 * 16 ^ t.length + 16 ^ t.length := by omega
          _ = 16 ^ t.length * 16 := by ring

theorem sscanf_hex_all {la : List Char} (hne : la ≠ [])
    (hhex : ∀ c ∈ la, isHexChar c = true) :
    sscanf_hex la = some (hexValList la % 2 ^ 32) ∧
      hexValList la < 16 ^ la.length := by
  rcases List.exists_cons_of_ne_nil hne with ⟨c, t, hl⟩
  have hc : isHexChar c = true :=
    hhex c (by rw [hl]; exact List.mem_cons_self _ _)
  have hcv : (hexVal? c).isSome = true := hc
  cases hv : hexVal? c with
  | none => rw [hv] at hcv; cases hcv
  | some d =>
    have hws : isWS c = false := hex_not_ws hc
    rcases scanDigits_all_hex la hhex 0 with ⟨v, hval, hbound⟩
    have hlist : hexValList la = v := by
      unfold hexValList
      rw [hval]
      norm_num
    have hscan : scanNat hexVal? 16 la = some (v, []) := by
      rw [hl, scanNat, List.dropWhile_cons, hws]
      simp only [Bool.false_eq_true, if_false]
      rw [hv]
      show some (scanDigits hexVal? 16 d t) = _
      have h1 : scanDigits hexVal? 16 d t =
          scanDigits hexVal? 16 0 (c :: t) := by
        rw [scanDigits, hv]
        norm_num
      rw [h1, ← hl, hval]
      norm_num
    constructor
    · unfold sscanf_hex
      rw [hscan, hlist]
      rfl
    · rw [hlist]
      exact hbound

/-! ## Scanning a whole well-formed kernel line -/

theorem scanNat_leading (X : List Char) :
    scanNat decVal? 10 ('1' :: ':' :: X) = some (1, ':' :: X) := rfl

theorem litChar_colon (X : List Char) :
    litChar ':' (':' :: X) = some X := rfl

theorem scanNat_state (st : Nat) (T : List Char) :
    scanNat hexVal? 16 (' ' :: (hexRender 2 st ++ ' ' :: T)) =
      some (st % 16 ^ 2, ' ' :: T) :=
  scanNat_hexRender 1 st (by intro c t h; cases h; exact hexVal_space)

theorem scanInodeTail_std (ino : Nat) :
    scanInodeTail (' ' :: '0' :: ':' :: '0' :: ' ' :: '0' :: ':' ::
      '0' :: ' ' :: '0' :: ' ' :: '0' :: ' ' :: '0' :: ' ' ::
      natDigits ino) = some ino := by
  have hN : scanNat decVal? 10 (' ' :: natDigits ino) =
      some (ino, []) := by
    have h := @scanNat_natDigits ino [] (fun c t h => List.noConfusion h)
    rw [List.append_nil] at h
    exact h
  show (match scanNat decVal? 10 (' ' :: natDigits ino) with
    | none => none
    | some (i, _) => some i) = some ino
  rw [hN]

theorem dropWhile_space_hex {la : List Char} (hne : la ≠ [])
    (hhex : ∀ c ∈ la, isHexChar c = true) (Y : List Char) :
    (' ' :: (la ++ Y)).dropWhile isWS = la ++ Y := by
  show (la ++ Y).dropWhile isWS = la ++ Y
  rcases List.exists_cons_of_ne_nil hne with ⟨c, t, hl⟩
  rw [hl, List.cons_append, List.dropWhile_cons,
    hex_not_ws (hhex c (by rw [hl]; exact List.mem_cons_self _ _))]
  simp only [Bool.false_eq_true, if_false]

theorem parse_line_mk {la ra : List Char}
    (hlne : la ≠ []) (hlhex : ∀ c ∈ la, isHexChar c = true)
    (hllen : la.length ≤ 9)
    (hrne : ra ≠ []) (hrhex : ∀ c ∈ ra, isHexChar c = true)
    (hrlen : ra.length ≤ 9)
    (lp rp st ino : Nat) :
    parse_line (mkKernelLine la lp ra rp st ino) =
      some ⟨la, lp % 2 ^ 16, ra, rp % 2 ^ 16, st % 2 ^ 8,
            ino % 2 ^ 64⟩ := by
  have h3 : ∀ Y : List Char,
      (' ' :: (la ++ Y)).dropWhile isWS = la ++ Y :=
    dropWhile_space_hex hlne hlhex
  have h4 : ∀ Y : List Char,
      (' ' :: (ra ++ Y)).dropWhile isWS = ra ++ Y :=
    dropWhile_space_hex hrne hrhex
  have h1 : ∀ Y, scanAddrPort (la ++ ':' :: (hexRender 4 lp ++
      ' ' :: Y)) = some (la, lp % 2 ^ 16, ' ' :: Y) :=
    scanAddrPort_v4 hlne hlhex hllen lp
  have h2 : ∀ Y, scanAddrPort (ra ++ ':' :: (hexRender 4 rp ++
      ' ' :: Y)) = some (ra, rp % 2 ^ 16, ' ' :: Y) :=
    scanAddrPort_v4 hrne hrhex hrlen rp
  have h7 : st % 16 ^ 2 % 2 ^ 8 = st % 2 ^ 8 := by
    have h16 : (16 : Nat) ^ 2 = 2 ^ 8 := by norm_num
    rw [h16]
    exact Nat.mod_mod_of_dvd st dvd_rfl
  have h8 : lp % 2 ^ 16 % 2 ^ 16 = lp % 2 ^ 16 :=
    Nat.mod_mod_of_dvd lp dvd_rfl
  have h9 : rp % 2 ^ 16 % 2 ^ 16 = rp % 2 ^ 16 :=
    Nat.mod_mod_of_dvd rp dvd_rfl
  simp only [mkKernelLine, parse_line, scanNat_leading, litChar_colon,
    h3, h1, h4, h2, scanNat_state, scanInodeTail_std, h7, h8, h9]

theorem parse_line_mk_long {la : List Char}
    (hlhex : ∀ c ∈ la, isHexChar c = true) (hllen : 10 ≤ la.length)
    (ra : List Char) (lp rp st ino : Nat) :
    parse_line (mkKernelLine la lp ra rp st ino) = none := by
  have hlne : la ≠ [] := by
    intro h
    rw [h] at hllen
    simp at hllen
  have h3 : ∀ Y : List Char,
      (' ' :: (la ++ Y)).dropWhile isWS = la ++ Y :=
    dropWhile_space_hex hlne hlhex
  have h1 : ∀ X, scanAddrPort (la ++ ':' :: X) = none :=
    scanAddrPort_long hlhex hllen
  simp only [mkKernelLine, parse_line, scanNat_leading, litChar_colon,
    h3, h1]

/-- C6: corrected.  The sscanf format of connection_update_ reads each
address field with the scanset %9[0-9A-Fa-f], so a well-formed kernel
line whose addresses are written as 8 hexadecimal characters (IPv4) is
accepted, and create_new_conn fills the connection tuple with exactly
the parsed values; but a line whose address is written as 32 hexadecimal
characters (IPv6) is NOT accepted: the scanset stops after 9 characters,
the tenth hexadecimal character stands where the format requires the
literal colon, the conversion fails and the line is dropped.  Only the
IPv4 half of the claimed acceptance holds. -/
theorem addr_parser_amended (la ra la32 : List Char)
    (lp rp st ino proto : Nat)
    (hl8 : la.length = 8) (hlhex : ∀ c ∈ la, isHexChar c = true)
    (hr8 : ra.length = 8) (hrhex : ∀ c ∈ ra, isHexChar c = true)
    (h32 : la32.length = 32) (h32hex : ∀ c ∈ la32, isHexChar c = true) :
    (parse_line (mkKernelLine la lp ra rp st ino) =
        some ⟨la, lp % 2 ^ 16, ra, rp % 2 ^ 16, st % 2 ^ 8,
              ino % 2 ^ 64⟩ ∧
      create_new_conn (ino % 2 ^ 64) la ra (lp % 2 ^ 16) (rp % 2 ^ 16)
          (st % 2 ^ 8) proto =
        some { tuple := { local_ip := hexValList la,
                          remote_ip := hexValList ra,
                          local_port := lp % 2 ^ 16,
                          remote_port := rp % 2 ^ 16,
                          protocol := proto },
               inode := ino % 2 ^ 64, state := st % 2 ^ 8,
               active := true, use := 0 }) ∧
    parse_line (mkKernelLine la32 lp ra rp st ino) = none := by
  have hlne : la ≠ [] := by
    intro h
    rw [h] at hl8
    simp at hl8
  have hrne : ra ≠ [] := by
    intro h
    rw [h] at hr8
    simp at hr8
  refine ⟨⟨?_, ?_⟩, ?_⟩
  · exact parse_line_mk hlne hlhex (by omega) hrne hrhex (by omega)
      lp rp st ino
  · rcases sscanf_hex_all hlne hlhex with ⟨hls, hlb⟩
    rcases sscanf_hex_all hrne hrhex with ⟨hrs, hrb⟩
    have h16 : (16 : Nat) ^ 8 = 2 ^ 32 := by norm_num
    rw [hl8, h16] at hlb
    rw [hr8, h16] at hrb
    have hlm : hexValList la % 2 ^ 32 = hexValList la :=
      Nat.mod_eq_of_lt hlb
    have hrm : hexValList ra % 2 ^ 32 = hexValList ra :=
      Nat.mod_eq_of_lt hrb
    unfold create_new_conn
    rw [hls, hrs]
    show (some { tuple := { local_ip := hexValList la % 2 ^ 32,
                            remote_ip := hexValList ra % 2 ^ 32,
                            local_port := lp % 2 ^ 16,
                            remote_port := rp % 2 ^ 16,
                            protocol := proto },
                 inode := ino % 2 ^ 64, state := st % 2 ^ 8,
                 active := true, use := 0 } : Option Connection) = _
    rw [hlm, hrm]
  · exact parse_line_mk_long h32hex (by omega) ra lp rp st ino

/-- C6 witness: a concrete line with 8-hex addresses parses to exactly
its fields and builds the expected record, while the same line with a
32-hex local address is rejected. -/
theorem addr_parser_amended_witness :
    (parse_line (mkKernelLine ['0', '1', '0', '0', '0', '0', '7', 'F']
        80 ['0', '0', '0', '0', '0', '0', '0', '0'] 443 1 42) =
        some ⟨['0', '1', '0', '0', '0', '0', '7', 'F'], 80 % 2 ^ 16,
          ['0', '0', '0', '0', '0', '0', '0', '0'], 443 % 2 ^ 16,
          1 % 2 ^ 8, 42 % 2 ^ 64⟩ ∧
      create_new_conn (42 % 2 ^ 64)
          ['0', '1', '0', '0', '0', '0', '7', 'F']
          ['0', '0', '0', '0', '0', '0', '0', '0']
          (80 % 2 ^ 16) (443 % 2 ^ 16) (1 % 2 ^ 8) 6 =
        some { tuple :=
                 { local_ip :=
                     hexValList ['0', '1', '0', '0', '0', '0', '7', 'F'],
                   remote_ip :=
                     hexValList ['0', '0', '0', '0', '0', '0', '0', '0'],
                   local_port := 80 % 2 ^ 16,
                   remote_port := 443 % 2 ^ 16,
                   protocol := 6 },
               inode := 42 % 2 ^ 64, state := 1 % 2 ^ 8,
               active := true, use := 0 }) ∧
    parse_line (mkKernelLine (List.replicate 32 '0') 80
        ['0', '0', '0', '0', '0', '0', '0', '0'] 443 1 42) = none :=
  addr_parser_amended ['0', '1', '0', '0', '0', '0', '7', 'F']
    ['0', '0', '0', '0', '0', '0', '0', '0'] (List.replicate 32 '0')
    80 443 1 42 6 (by decide) (by decide) (by decide) (by decide)
    (by decide) (by decide)

/-- C6 counterexample to the original claim: a well-formed kernel line
whose local and remote addresses are written as 32 hexadecimal
characters (IPv6) is rejected by the line parser. -/
theorem ipv6_line_rejected_counterexample :
    parse_line (mkKernelLine (List.replicate 32 '0') 80
      (List.replicate 32 '0') 443 1 42) = none := rfl

/-! ## sec2clock decomposition -/

theorem toInt32_of_lt {n : Nat} (h : n < 2 ^ 31) : toInt32 n = (n : Int) := by
  have h31 : (2 : Nat) ^ 31 < 2 ^ 32 := by norm_num
  have h32 : n % 2 ^ 32 = n := Nat.mod_eq_of_lt (by omega)
  show (if n % 2 ^ 32 < 2 ^ 31 then ((n % 2 ^ 32 : Nat) : Int)
    else ((n % 2 ^ 32 : Nat) : Int) - 2 ^ 32) = (n : Int)
  rw [h32, if_pos h]

theorem tdiv3600 (m : Nat) :
    Int.tdiv (m : Int) 3600 = ((m / 3600 : Nat) : Int) := rfl

theorem tdiv60 (m : Nat) :
    Int.tdiv (m : Int) 60 = ((m / 60 : Nat) : Int) := rfl

theorem tmod60 (m : Nat) :
    Int.tmod (m : Int) 60 = ((m % 60 : Nat) : Int) := rfl

theorem intStr_ofNat (n : Nat) : intStr (n : Int) = natDigits n := by
  unfold intStr
  rw [if_neg (by omega : ¬((n : Int) < 0))]
  simp

theorem natDigitsF_length_le : ∀ (fuel n k : Nat), n < fuel →
    n < 10 ^ k → 1 ≤ k → (natDigitsF fuel n).length ≤ k := by
  intro fuel
  induction fuel with
  | zero => intro n k h; omega
  | succ fuel ih =>
    intro n k hf hk hk1
    by_cases h10 : n < 10
    · rw [natDigitsF, if_pos h10]
      simpa using hk1
    · rw [natDigitsF, if_neg h10]
      rw [List.length_append, List.length_singleton]
      rcases k with _ | k
      · omega
      rcases k with _ | k
      · norm_num at hk
        omega
      · have hdiv : n / 10 < 10 ^ (k + 1) := by
          have hmul : n < 10 ^ (k + 1) * 10 := by
            rw [← pow_succ]
            exact hk
          omega
        have hrec := ih (n / 10) (k + 1) (by omega) hdiv (by omega)
        omega

theorem natDigits_length_le {n k : Nat} (hk : 1 ≤ k) (h : n < 10 ^ k) :
    (natDigits n).length ≤ k :=
  natDigitsF_length_le (n + 1) n k (by omega) h hk

theorem natDigits_length_pos (n : Nat) : 1 ≤ (natDigits n).length := by
  rcases natDigitsF_head (n + 1) n (by omega) with ⟨c, t, d, heq, _, _⟩
  unfold natDigits
  rw [heq]
  simp

theorem pad02_length_le {n : Nat} (k : Nat) (h2 : 2 ≤ k)
    (h : n < 10 ^ k) : (pad02 (n : Int)).length ≤ k := by
  have hle : (natDigits n).length ≤ k := natDigits_length_le (by omega) h
  simp only [pad02, intStr_ofNat]
  by_cases hlt : (natDigits n).length < 2
  · rw [if_pos hlt]
    simp only [List.length_cons]
    omega
  · rw [if_neg hlt]
    exact hle

theorem pad02_length_eq_two {n : Nat} (h : n < 100) :
    (pad02 (n : Int)).length = 2 := by
  have h100 : n < 10 ^ 2 := by norm_num; exact h
  have hle : (natDigits n).length ≤ 2 := natDigits_length_le (by omega) h100
  have hpos := natDigits_length_pos n
  simp only [pad02, intStr_ofNat]
  by_cases hlt : (natDigits n).length < 2
  · rw [if_pos hlt]
    simp only [List.length_cons]
    omega
  · rw [if_neg hlt]
    omega

/-- C10: confirmed.  For secs below 2^31 the (int) casts in sec2clock are
the identity, so the printed text is pad02(secs/3600) ++ ":" ++
pad02(secs%3600/60) ++ ":" ++ pad02(secs%3600%60): the minute and second
fields are two digits and strictly below 60, the decomposition
hh*3600 + mm*60 + ss = secs holds, and the snprintf truncation to 13
characters never fires (the hour field has at most 6 digits). -/
theorem sec2clock_decomposition (secs : Nat) (hs : secs < 2 ^ 31) :
    ∃ hh mm ss : Nat, mm < 60 ∧ ss < 60 ∧
      hh * 3600 + mm * 60 + ss = secs ∧
      (pad02 (mm : Int)).length = 2 ∧ (pad02 (ss : Int)).length = 2 ∧
      sec2clock secs = pad02 (hh : Int) ++ ':' :: pad02 (mm : Int) ++
        ':' :: pad02 (ss : Int) := by
  have h31 : (2 : Nat) ^ 31 = 2147483648 := by norm_num
  have hs' : secs < 2147483648 := by rw [h31] at hs; exact hs
  refine ⟨secs / 3600, secs % 3600 / 60, secs % 3600 % 60,
    by omega, by omega, by omega,
    pad02_length_eq_two (by omega), pad02_length_eq_two (by omega), ?_⟩
  have hmod31 : secs % 3600 < 2 ^ 31 := by
    rw [h31]
    omega
  show (pad02 (Int.tdiv (toInt32 secs) 3600) ++ ':' ::
    pad02 (Int.tdiv (toInt32 (secs % 3600)) 60) ++ ':' ::
    pad02 (Int.tmod (toInt32 (secs % 3600)) 60)).take 13 = _
  rw [toInt32_of_lt hs, toInt32_of_lt hmod31, tdiv3600, tdiv60, tmod60]
  have l1 : (pad02 ((secs / 3600 : Nat) : Int)).length ≤ 6 := by
    refine pad02_length_le 6 (by omega) ?_
    have h6 : (10 : Nat) ^ 6 = 1000000 := by norm_num
    rw [h6]
    omega
  have l2 : (pad02 ((secs % 3600 / 60 : Nat) : Int)).length = 2 :=
    pad02_length_eq_two (by omega)
  have l3 : (pad02 ((secs % 3600 % 60 : Nat) : Int)).length = 2 :=
    pad02_length_eq_two (by omega)
  have hlen : (pad02 ((secs / 3600 : Nat) : Int) ++ ':' ::
      pad02 ((secs % 3600 / 60 : Nat) : Int) ++ ':' ::
      pad02 ((secs % 3600 % 60 : Nat) : Int)).length ≤ 13 := by
    rw [List.length_append, List.length_cons, List.length_append,
      List.length_cons]
    omega
  rw [List.take_of_length_le hlen]

/-- C10 witness: 3661 seconds print as 01:01:01 with the decomposition
1*3600 + 1*60 + 1. -/
theorem sec2clock_decomposition_witness :
    3661 < 2 ^ 31 ∧ ∃ hh mm ss : Nat, mm < 60 ∧ ss < 60 ∧
      hh * 3600 + mm * 60 + ss = 3661 ∧
      (pad02 (mm : Int)).length = 2 ∧ (pad02 (ss : Int)).length = 2 ∧
      sec2clock 3661 = pad02 (hh : Int) ++ ':' :: pad02 (mm : Int) ++
        ':' :: pad02 (ss : Int) :=
  ⟨by norm_num, sec2clock_decomposition 3661 (by norm_num)⟩

end Netproc
